import Mathlib

/-
Verification of the response-parsing pipeline of the tech-referee service
(src/app/api/referee/route.ts and the extended route file shipped as
src/unnamed/part_000).  The pipeline takes the raw text reply of a language
model plus the two technology names and produces either a structured
comparison record or a typed failure.

The JavaScript source drives everything through regular expressions
executed by String.prototype.match.  We embed those regexes shallowly:
an AST (RE) of exactly the constructs used by the source (literals,
character classes, sequencing, alternation, capture groups, greedy and
lazy class stars, lookahead, end-of-input, word boundary), and a matcher
mAll that enumerates the ways a pattern can match a prefix of the input
in JavaScript backtracking priority order, so that the head of the list
is the match JavaScript produces.  Every quantifier appearing in the
source patterns ranges over a single-character class, which the AST
reflects.  All patterns in the source carry the i flag (or contain no
cased literal), so literal characters compare case-insensitively.
Strings are modelled as lists of characters; whitespace and lowercasing
follow the ASCII behaviour of JavaScript, which is faithful on the
character sets involved.
-/

set_option maxRecDepth 40000
set_option maxHeartbeats 16000000

/-- Whitespace characters, as matched by the regex class backslash-s and by
String.prototype.trim in JavaScript (the ASCII part plus the common
Unicode members that can arise here). -/
def isWs (c : Char) : Bool :=
  c = ' ' || c = '\t' || c = '\n' || c = '\r' || c = '\x0b' || c = '\x0c' ||
  c = '\u00A0' || c = '\u2028' || c = '\u2029' || c = '\uFEFF'

/-- Word characters for the word-boundary assertion backslash-b. -/
def isWordChar (c : Char) : Bool :=
  ('a' ≤ c && c ≤ 'z') || ('A' ≤ c && c ≤ 'Z') || ('0' ≤ c && c ≤ '9') || c = '_'

/-- Characters matched by an unflagged dot in JavaScript (anything except
line terminators). -/
def isDot (c : Char) : Bool :=
  !(c = '\n' || c = '\r' || c = '\u2028' || c = '\u2029')

/-- Model of String.prototype.trim. -/
def trimL (l : List Char) : List Char :=
  ((l.dropWhile isWs).reverse.dropWhile isWs).reverse

/-- Model of String.prototype.toLowerCase (ASCII-faithful). -/
def lowerL (l : List Char) : List Char :=
  l.map Char.toLower

/-- Model of String.prototype.includes: needle occurs as a contiguous
substring of hay. -/
def containsSub (needle hay : List Char) : Bool :=
  match hay with
  | [] => needle.isEmpty
  | _ :: t => needle.isPrefixOf hay || containsSub needle t

/-- Split a character list at every occurrence of the character sep,
modelling String.prototype.split(sep). -/
def splitOnC (sep : Char) (l : List Char) : List (List Char) :=
  match l with
  | [] => [[]]
  | c :: t =>
    let r := splitOnC sep t
    if c = sep then [] :: r
    else
      match r with
      | h :: t2 => (c :: h) :: t2
      | [] => [[c]]

/-- Captured groups 1 to 3 (no source pattern has more than three). -/
structure Caps where
  g1 : Option (List Char) := none
  g2 : Option (List Char) := none
  g3 : Option (List Char) := none
deriving Repr, DecidableEq

def Caps.set (c : Caps) (i : Nat) (v : List Char) : Caps :=
  match i with
  | 1 => { c with g1 := some v }
  | 2 => { c with g2 := some v }
  | 3 => { c with g3 := some v }
  | _ => c

/-- Regular-expression AST covering exactly the constructs used by the
source patterns.  starG and starL are greedy and lazy stars over a
single-character class; plus and bounded repetitions are expanded at
transcription time. -/
inductive RE where
  | eps
  | lit (c : Char)
  | cls (p : Char → Bool)
  | seq (a b : RE)
  | alt (a b : RE)
  | grp (i : Nat) (r : RE)
  | starG (p : Char → Bool)
  | starL (p : Char → Bool)
  | look (r : RE)
  | eos
  | wordB

/-- The character consumed just before the current position, needed by the
word-boundary assertion. -/
def prevAfter (prev : Option Char) (s : List Char) (n : Nat) : Option Char :=
  match (s.take n).getLast? with
  | some c => some c
  | none => prev

def isBoundary (prev : Option Char) (s : List Char) : Bool :=
  let a := match prev with | some c => isWordChar c | none => false
  let b := match s with | c :: _ => isWordChar c | [] => false
  a != b

/-- Consumption counts a greedy class star can take on s, longest first
(JavaScript tries the longest repetition first and backtracks downwards). -/
def starGList (p : Char → Bool) (s : List Char) : List Nat :=
  match s with
  | [] => [0]
  | c :: t => if p c then (starGList p t).map (· + 1) ++ [0] else [0]

/-- Consumption counts for a lazy class star, shortest first. -/
def starLList (p : Char → Bool) (s : List Char) : List Nat :=
  match s with
  | [] => [0]
  | c :: t => if p c then 0 :: (starLList p t).map (· + 1) else [0]

/-- All ways re can match a prefix of s, as pairs (consumed length,
captures), in JavaScript backtracking priority order: the head of the
list is the match JavaScript's engine commits to.  prev is the character
immediately before s in the overall subject (for word boundaries).
Literals compare case-insensitively, reflecting the i flag carried by
every source pattern containing cased literals. -/
def mAll (re : RE) (prev : Option Char) (s : List Char) (caps : Caps) :
    List (Nat × Caps) :=
  match re with
  | .eps => [(0, caps)]
  | .lit c =>
    match s with
    | [] => []
    | x :: _ => if x.toLower = c.toLower then [(1, caps)] else []
  | .cls p =>
    match s with
    | [] => []
    | x :: _ => if p x then [(1, caps)] else []
  | .seq a b =>
    (mAll a prev s caps).flatMap (fun r =>
      (mAll b (prevAfter prev s r.1) (s.drop r.1) r.2).map (fun r2 => (r.1 + r2.1, r2.2)))
  | .alt a b => mAll a prev s caps ++ mAll b prev s caps
  | .grp i r =>
    (mAll r prev s caps).map (fun r2 => (r2.1, r2.2.set i (s.take r2.1)))
  | .starG p => (starGList p s).map (fun n => (n, caps))
  | .starL p => (starLList p s).map (fun n => (n, caps))
  | .look r => if (mAll r prev s caps).isEmpty then [] else [(0, caps)]
  | .eos => if s.isEmpty then [(0, caps)] else []
  | .wordB => if isBoundary prev s then [(0, caps)] else []

/-- Leftmost search: the first start position at which the pattern matches,
together with the length of the committed match and its captures. -/
def searchAux (re : RE) (prev : Option Char) (s : List Char) (pos : Nat) :
    Option (Nat × Nat × Caps) :=
  match s with
  | [] =>
    match mAll re prev [] {} with
    | r :: _ => some (pos, r.1, r.2)
    | [] => none
  | c :: t =>
    match mAll re prev (c :: t) {} with
    | r :: _ => some (pos, r.1, r.2)
    | [] => searchAux re (some c) t (pos + 1)

def jsSearch (re : RE) (s : List Char) : Option (Nat × Nat × Caps) :=
  searchAux re none s 0

/-- Model of s.match(re) for a non-global regex: the overall matched text
and the captures of the first (leftmost) match. -/
def jsMatch (re : RE) (s : List Char) : Option (List Char × Caps) :=
  match jsSearch re s with
  | some (p, n, c) => some (((s.drop p).take n), c)
  | none => none

/-- The capture of group 1 of the first match, or none if the pattern does
not match (so that both a failed match and an absent group read as none). -/
def jsMatch1 (re : RE) (s : List Char) : Option (List Char) :=
  (jsMatch re s).bind (fun r => r.2.g1)

/-- Successive non-overlapping matches of a global regex, used to model
s.match(re-with-g-flag).  An empty match advances the scan by one
character, as in JavaScript.  The fuel argument starts at s.length + 1
and dominates the number of possible matches, so it never runs out. -/
def gMatchesAux (re : RE) (prev : Option Char) (s : List Char) (fuel : Nat) :
    List (List Char) :=
  match fuel with
  | 0 => []
  | fuel + 1 =>
    match searchAux re prev s 0 with
    | none => []
    | some (p, n, _) =>
      let step := p + max n 1
      ((s.drop p).take n) ::
        gMatchesAux re (prevAfter prev s step) (s.drop step) fuel

def gMatches (re : RE) (s : List Char) : List (List Char) :=
  gMatchesAux re none s (s.length + 1)

/-- Number of matches of a global regex, modelling
(s.match(re) or empty).length for a g-flagged regex. -/
def gCount (re : RE) (s : List Char) : Nat :=
  (gMatches re s).length

/-- Sequential composition of a list of pattern pieces. -/
def cat (l : List RE) : RE := l.foldr RE.seq RE.eps

/-- A chain of literal characters. -/
def lits (s : String) : RE := cat (s.data.map RE.lit)

def wsStar : RE := RE.starG isWs

/-- backslash-s-plus, expanded to class followed by greedy star. -/
def wsPlus : RE := RE.seq (RE.cls isWs) wsStar

/-- Greedy plus over a class. -/
def plusG (p : Char → Bool) : RE := RE.seq (RE.cls p) (RE.starG p)

/-- Lazy plus over a class. -/
def plusL (p : Char → Bool) : RE := RE.seq (RE.cls p) (RE.starL p)

/-- Greedy optional. -/
def optG (r : RE) : RE := RE.alt r RE.eps

/-
Section extraction (part_000 lines 1011-1097, route.ts lines 402-464).
The five heading patterns, written in the source (with the i flag) as
  matchup:     ###\s*1\..*?(?:EMOJI|Matchup)\s*([every char]*?)(?=###\s*2\.|$)
  taleOfTheTape, verdicts, hiddenTax: the same shape with ordinals 2-4,
  tieBreaker:  ###\s*5\..*?(?:EMOJI|Tie-Breaker)\s*([every char]*?)$
where [every char] abbreviates the class [backslash-s backslash-S].
-/

/-- The numbered heading marker ###\s*d\. that both starts a section
pattern and terminates the previous section's lookahead. -/
def nextMarker (d : Char) : RE := cat [lits "###", wsStar, RE.lit d, RE.lit '.']

def secRE (d : Char) (emoji : String) (label : String) (nxt : Option Char) : RE :=
  cat [nextMarker d, RE.starL isDot,
       RE.alt (lits emoji) (lits label), wsStar,
       RE.grp 1 (RE.starL (fun _ => true)),
       match nxt with
       | some d2 => RE.look (RE.alt (nextMarker d2) RE.eos)
       | none => RE.eos]

inductive SectionKey where
  | matchup | taleOfTheTape | verdicts | hiddenTax | tieBreaker
deriving Repr, DecidableEq

def sectionRE : SectionKey → RE
  | .matchup => secRE '1' "🥊" "Matchup" (some '2')
  | .taleOfTheTape => secRE '2' "📊" "Tale of the Tape" (some '3')
  | .verdicts => secRE '3' "⚖️" "Verdicts" (some '4')
  | .hiddenTax => secRE '4' "⚠️" "Hidden Tax" (some '5')
  | .tieBreaker => secRE '5' "🏁" "Tie-Breaker" none

/-- The scan order of extractSections: JavaScript object iteration follows
declaration order (part_000 lines 1045-1051). -/
def sectionOrder : List SectionKey :=
  [.matchup, .taleOfTheTape, .verdicts, .hiddenTax, .tieBreaker]

/-- The group-1 capture of the section pattern on the trimmed reply, none
when the pattern does not match. -/
def runSection (k : SectionKey) (resp : List Char) : Option (List Char) :=
  jsMatch1 (sectionRE k) resp

/-- A section attempt succeeds when the pattern matched and the capture is
non-empty after trimming; part_000 line 1058 rejects a match whose
capture trims to the empty string exactly like a missing heading. -/
def goodSection (k : SectionKey) (resp : List Char) : Bool :=
  match runSection k resp with
  | some c => !(trimL c).isEmpty
  | none => false

structure SectionData where
  matchup : String
  taleOfTheTape : String
  verdicts : String
  hiddenTax : String
  tieBreaker : String
deriving Repr, DecidableEq

inductive ExtractErr where
  | emptyResponse
  | missingSection (k : SectionKey)
deriving Repr, DecidableEq

/-- extractSections (part_000 lines 1011-1097).  The input is trimmed; an
empty trimmed input is reported as an empty response before any section
is attempted; then the five sections are scanned in declaration order and
the first missing-or-empty one aborts the whole extraction, so no partial
section set is ever produced.  The inner per-pattern try/catch of the
source can never fire (the patterns are fixed and valid) and is not
modelled. -/
def extractSections (response : String) : Except ExtractErr SectionData :=
  let tr := trimL response.data
  if tr.isEmpty then .error .emptyResponse
  else
    match runSection .matchup tr with
    | none => .error (.missingSection .matchup)
    | some c1 =>
      if (trimL c1).isEmpty then .error (.missingSection .matchup)
      else
        match runSection .taleOfTheTape tr with
        | none => .error (.missingSection .taleOfTheTape)
        | some c2 =>
          if (trimL c2).isEmpty then .error (.missingSection .taleOfTheTape)
          else
            match runSection .verdicts tr with
            | none => .error (.missingSection .verdicts)
            | some c3 =>
              if (trimL c3).isEmpty then .error (.missingSection .verdicts)
              else
                match runSection .hiddenTax tr with
                | none => .error (.missingSection .hiddenTax)
                | some c4 =>
                  if (trimL c4).isEmpty then .error (.missingSection .hiddenTax)
                  else
                    match runSection .tieBreaker tr with
                    | none => .error (.missingSection .tieBreaker)
                    | some c5 =>
                      if (trimL c5).isEmpty then .error (.missingSection .tieBreaker)
                      else .ok
                        { matchup := ⟨trimL c1⟩
                          taleOfTheTape := ⟨trimL c2⟩
                          verdicts := ⟨trimL c3⟩
                          hiddenTax := ⟨trimL c4⟩
                          tieBreaker := ⟨trimL c5⟩ }

/-
Tale of the Tape parsing (part_000 lines 1102-1288, route.ts 469-629).
-/

structure DimPair where
  tech1 : String
  tech2 : String
deriving Repr, DecidableEq

/-- The comparison object being filled in; fields mirror the JavaScript
object keys of ComparisonMatrix. -/
structure CompMatrix where
  speed : Option DimPair := none
  cost : Option DimPair := none
  developerExperience : Option DimPair := none
  scalability : Option DimPair := none
  maintainability : Option DimPair := none
deriving Repr, DecidableEq

def dimensions : List String :=
  ["Speed", "Cost", "Developer Experience", "Scalability", "Maintainability"]

/-- Store a pair under the canonical dimension label (the composition of
find-matching-dimension and dimensionKeyMap in the source, which maps
every canonical label to its object key). -/
def setDim (m : CompMatrix) (dim : String) (v : DimPair) : CompMatrix :=
  if dim = "Speed" then { m with speed := some v }
  else if dim = "Cost" then { m with cost := some v }
  else if dim = "Developer Experience" then { m with developerExperience := some v }
  else if dim = "Scalability" then { m with scalability := some v }
  else if dim = "Maintainability" then { m with maintainability := some v }
  else m

def countSome (m : CompMatrix) : Nat :=
  (if m.speed.isSome then 1 else 0) + (if m.cost.isSome then 1 else 0) +
  (if m.developerExperience.isSome then 1 else 0) +
  (if m.scalability.isSome then 1 else 0) +
  (if m.maintainability.isSome then 1 else 0)

/-- The skip test of the line-by-line phase (part_000 line 1191): the
source looks up comparison[dimension.toLowerCase().replace(whitespace,
empty)].  For Developer Experience that key is developerexperience,
which is not a field of the comparison object (the field is
developerExperience), so the lookup is always undefined and the
dimension is re-parsed even when the table phase already filled it. -/
def lineSkipCheck (m : CompMatrix) (dim : String) : Bool :=
  if dim = "Speed" then m.speed.isSome
  else if dim = "Cost" then m.cost.isSome
  else if dim = "Developer Experience" then false
  else if dim = "Scalability" then m.scalability.isSome
  else if dim = "Maintainability" then m.maintainability.isSome
  else false

def notPipe (c : Char) : Bool := !(c = '|')
def notPipeNl (c : Char) : Bool := !(c = '|' || c = '\n')
def notNl (c : Char) : Bool := !(c = '\n')
def alnumDollar (c : Char) : Bool :=
  ('A' ≤ c && c ≤ 'Z') || ('a' ≤ c && c ≤ 'z') || ('0' ≤ c && c ≤ '9') || c = '$'
def pipeOrWs (c : Char) : Bool := c = '|' || isWs c

/-- The markdown table row pattern (global, part_000 line 1139), written in
the source as a pipe, a pipeless run, a pipe, a pipeless run, a pipe, a
pipeless run, a pipe. -/
def tableRowRE : RE :=
  cat [RE.lit '|', RE.starG notPipe, RE.lit '|', RE.starG notPipe,
       RE.lit '|', RE.starG notPipe, RE.lit '|']

def eolLook : RE := RE.look (RE.alt (RE.lit '\n') RE.eos)

/-- The six line-oriented fallback patterns for one dimension
(part_000 lines 1198-1211), transcribed in order. -/
def linePatterns (d : String) : List RE :=
  [ cat [RE.lit '|', wsStar, lits d, wsStar, RE.lit '|', wsStar,
         RE.grp 1 (plusL notPipe), wsStar, RE.lit '|', wsStar,
         RE.grp 2 (plusL notPipe), wsStar, RE.lit '|'],
    cat [lits d, wsStar, RE.cls (fun c => c = ':' || c = '|'), wsStar,
         RE.grp 1 (plusL notPipeNl), wsStar, RE.lit '|', wsStar,
         RE.grp 2 (plusL notPipeNl), eolLook],
    cat [lits d, wsStar, RE.lit '|', wsStar, RE.grp 1 (plusL notPipe), wsStar,
         RE.lit '|', wsStar, RE.grp 2 (plusL notPipe), eolLook],
    cat [lits "**", lits d, lits "**", wsStar, RE.lit '|', wsStar,
         RE.grp 1 (plusL notPipe), wsStar, RE.lit '|', wsStar,
         RE.grp 2 (plusL notPipe), eolLook],
    cat [lits d, wsStar, RE.cls (fun c => c = '-' || c = ':'), wsStar,
         RE.grp 1 (plusL notNl), wsPlus, lits "vs", wsPlus,
         RE.grp 2 (plusL notNl), eolLook],
    cat [lits d, RE.starL notNl,
         RE.grp 1 (RE.seq (RE.cls alnumDollar) (RE.starL notPipeNl)), wsStar,
         plusG pipeOrWs,
         RE.grp 2 (RE.seq (RE.cls alnumDollar) (RE.starL notPipeNl)), eolLook] ]

/-- The break-or-keep-last dance of the pattern loops in the source: run
the patterns in order against the subject, return the first match
satisfying the break condition, and otherwise whatever the loop variable
holds after the final iteration (the last pattern's result). -/
def fgol {α : Type} (f : RE → Option α) (good : α → Bool) : List RE → Option α
  | [] => none
  | [p] => f p
  | p :: rest =>
    match f p with
    | some a => if good a then some a else fgol f good rest
    | none => fgol f good rest

/-- Strip one leading and one trailing double asterisk, modelling
replace of the anchored global bold pattern (part_000 line 1244). -/
def stripBold (l : List Char) : List Char :=
  let l1 := if ['*', '*'].isPrefixOf l then l.drop 2 else l
  if ['*', '*'].isPrefixOf l1.reverse then (l1.reverse.drop 2).reverse else l1

/-- Process one data row of the markdown table (part_000 lines 1144-1183):
split on pipes, trim, drop empty cells, fuzzy-match the first cell
against the canonical dimensions by substring in either direction, and
store cells two and three. -/
def tableRowStep (m : CompMatrix) (row : List Char) : CompMatrix :=
  let cells := ((splitOnC '|' row).map trimL).filter (fun c => !c.isEmpty)
  if cells.length ≥ 3 then
    let dimName := cells.getD 0 []
    let v1 := cells.getD 1 []
    let v2 := cells.getD 2 []
    match dimensions.find? (fun dim =>
        containsSub (lowerL dim.data) (lowerL dimName) ||
        containsSub (lowerL dimName) (lowerL dim.data)) with
    | some dim => setDim m dim ⟨⟨v1⟩, ⟨v2⟩⟩
    | none => m
  else m

/-- The good-match break condition of the line-phase pattern loop
(part_000 line 1218): both captures present and non-empty after trim. -/
def goodLine (r : List Char × Caps) : Bool :=
  (match r.2.g1 with | some c => !(trimL c).isEmpty | none => false) &&
  (match r.2.g2 with | some c => !(trimL c).isEmpty | none => false)

/-- Line-by-line parsing of one dimension (part_000 lines 1190-1249). -/
def lineStep (tc : List Char) (m : CompMatrix) (dim : String) : CompMatrix :=
  if lineSkipCheck m dim then m
  else
    match fgol (fun p => jsMatch p tc) goodLine (linePatterns dim) with
    | some r =>
      match r.2.g1, r.2.g2 with
      | some c1, some c2 =>
        if c1.isEmpty || c2.isEmpty then m
        else setDim m dim ⟨⟨stripBold (trimL c1)⟩, ⟨stripBold (trimL c2)⟩⟩
      | _, _ => m
    | none => m

/-- The canonical labels of the dimensions still missing, in the fixed
order of the final validation (part_000 lines 1260-1265). -/
def missingDims (m : CompMatrix) : List String :=
  (if m.speed.isNone then ["Speed"] else []) ++
  (if m.cost.isNone then ["Cost"] else []) ++
  (if m.developerExperience.isNone then ["Developer Experience"] else []) ++
  (if m.scalability.isNone then ["Scalability"] else []) ++
  (if m.maintainability.isNone then ["Maintainability"] else [])

inductive TaleErr where
  | invalidContent
  | emptyContent
  | invalidTechNames
  | missingData (l : List String)
deriving Repr, DecidableEq

/-- The two collection phases of parseTaleOfTheTape: the markdown-table
phase (only when the global row pattern yields more than two rows,
skipping the header and separator rows) followed, if fewer than five
dimensions are populated, by the line-oriented fallback phase. -/
def collectMatrix (tc : List Char) : CompMatrix :=
  let rows := gMatches tableRowRE tc
  let m1 := if rows.length > 2 then (rows.drop 2).foldl tableRowStep {} else {}
  if countSome m1 < 5 then dimensions.foldl (lineStep tc) m1 else m1

/-- parseTaleOfTheTape (part_000 lines 1102-1288): input guards, the two
collection phases, and the completeness check naming every missing
dimension by its canonical label. -/
def parseTaleOfTheTape (content tech1 tech2 : String) : Except TaleErr CompMatrix :=
  if content = "" then .error .invalidContent
  else
    let tc := trimL content.data
    if tc.isEmpty then .error .emptyContent
    else if (trimL tech1.data).isEmpty || (trimL tech2.data).isEmpty then
      .error .invalidTechNames
    else
      let m2 := collectMatrix tc
      if (missingDims m2).isEmpty then .ok m2
      else .error (.missingData (missingDims m2))

/-
Scenario (Verdicts) parsing, part_000 lines 1293-1541.
-/

structure SVerdict where
  name : String
  winner : String
  reasoning : String
  context : String
deriving Repr, DecidableEq

inductive ScenErr where
  | invalidContent
  | emptyContent
  | missingScenario (name : String)
  | noTechNames (name : String)
  | winnerUndetermined (name : String)
  | wrongCount (n : Nat)
  | scenariosCaught
deriving Repr, DecidableEq

inductive ScenResult where
  | ok (l : List SVerdict)
  | fail (e : ScenErr)
deriving Repr, DecidableEq

/-- A JavaScript runtime exception relevant to this pipeline: constructing
a RegExp from a malformed pattern string. -/
inductive JsErr where
  | invalidRegex (pat : String)
deriving Repr, DecidableEq

def scenarioNames : List String := ["Move Fast Team", "Scale Team", "Budget Team"]

/-- Remove the first occurrence of pat, modelling
String.prototype.replace(pat, empty) with a string pattern. -/
def removeFirstSub (pat l : List Char) : List Char :=
  if pat.isPrefixOf l then l.drop pat.length
  else
    match l with
    | [] => []
    | c :: t => c :: removeFirstSub pat t

/-- name.replace(of-space-Team, empty): the team type used inside the
dynamically built scenario patterns. -/
def teamType (name : String) : List Char :=
  removeFirstSub " Team".data name.data

def abcCI (c : Char) : Bool := c.toLower = 'a' || c.toLower = 'b' || c.toLower = 'c'

def anyCls : RE := RE.starL (fun _ => true)

/-- The six scenario-location patterns for one scenario name (part_000
lines 1328-1341), in order.  T below stands for the team type. -/
def scenPatterns (name : String) : List RE :=
  let T := teamType name
  [ -- 1: **Scenario X (The 'T' Team):** capture until **Scenario or end
    cat [lits "**Scenario ", RE.cls abcCI, lits " (The \x27", cat (T.map RE.lit),
         lits "\x27 Team):**", wsStar, RE.grp 1 anyCls,
         RE.look (RE.alt (lits "**Scenario") RE.eos)],
    -- 2: the same with double quotes around T
    cat [lits "**Scenario ", RE.cls abcCI, lits " (The \x22", cat (T.map RE.lit),
         lits "\x22 Team):**", wsStar, RE.grp 1 anyCls,
         RE.look (RE.alt (lits "**Scenario") RE.eos)],
    -- 3: ###\s*Scenario X (The 'T' Team) capture until ### or end
    cat [lits "###", wsStar, lits "Scenario ", RE.cls abcCI, lits " (The \x27",
         cat (T.map RE.lit), lits "\x27 Team)", wsStar, RE.grp 1 anyCls,
         RE.look (RE.alt (lits "###") RE.eos)],
    -- 4: **Scenario X: The 'T' Team** capture until **Scenario or end
    cat [lits "**Scenario ", RE.cls abcCI, RE.lit ':', wsStar, lits "The \x27",
         cat (T.map RE.lit), lits "\x27 Team**", wsStar, RE.grp 1 anyCls,
         RE.look (RE.alt (lits "**Scenario") RE.eos)],
    -- 5: (?:Scenario X|** lazy-dots) lazy-dots T lazy-dots Team lazy-dots capture,
    --    until (?:Scenario X|** lazy-dots Team) or end
    cat [RE.alt (RE.seq (lits "Scenario ") (RE.cls abcCI))
               (RE.seq (lits "**") (RE.starL isDot)),
         RE.starL isDot, cat (T.map RE.lit), RE.starL isDot, lits "Team",
         RE.starL isDot, RE.grp 1 anyCls,
         RE.look (RE.alt (RE.alt (RE.seq (lits "Scenario ") (RE.cls abcCI))
                                 (cat [lits "**", RE.starL isDot, lits "Team"]))
                         RE.eos)],
    -- 6: T lazy-dots Team lazy-dots capture, until (?:Scale|Budget|Move Fast)
    --    lazy-dots Team or end
    cat [cat (T.map RE.lit), RE.starL isDot, lits "Team", RE.starL isDot,
         RE.grp 1 anyCls,
         RE.look (RE.alt (cat [RE.alt (lits "Scale")
                                      (RE.alt (lits "Budget") (lits "Move Fast")),
                               RE.starL isDot, lits "Team"])
                         RE.eos)] ]

def noPunctNl (c : Char) : Bool := !(c = '.' || c = '!' || c = '?' || c = '\n')
def sentPunct (c : Char) : Bool := c = '.' || c = '!' || c = '?'
def noDotNl (c : Char) : Bool := !(c = '.' || c = '\n')
def isAlphaC (c : Char) : Bool := ('A' ≤ c && c ≤ 'Z') || ('a' ≤ c && c ≤ 'z')
/-- The class [A-Za-z0-9 backslash-s .+-] used in technology-name-like
captures. -/
def nameCls (c : Char) : Bool :=
  ('A' ≤ c && c ≤ 'Z') || ('a' ≤ c && c ≤ 'z') || ('0' ≤ c && c ≤ '9') ||
  isWs c || c = '.' || c = '+' || c = '-'

/-- The seven winner-extraction patterns (part_000 lines 1383-1396). -/
def winnerPatterns : List RE :=
  [ cat [lits "Which wins?", wsStar,
         RE.grp 1 (RE.seq (RE.starG noPunctNl) (RE.cls sentPunct))],
    cat [RE.alt (lits "Winner") (RE.seq (lits "win") (optG (RE.lit 's'))),
         RE.lit ':', wsStar, RE.grp 1 (plusG noDotNl)],
    cat [RE.grp 1 (RE.seq (RE.cls isAlphaC) (RE.starG nameCls)), wsPlus, lits "wins"],
    cat [RE.grp 1 (RE.seq (RE.cls isAlphaC) (RE.starG nameCls)), wsPlus,
         RE.alt (lits "could be seen as") (RE.alt (lits "is") (lits "would be")),
         wsPlus, optG (RE.seq (lits "the") wsPlus), lits "winner"],
    cat [RE.alt (lits "go with") (RE.alt (lits "choose")
                                         (RE.alt (lits "pick") (lits "use"))),
         wsPlus, RE.grp 1 (RE.seq (RE.cls isAlphaC) (RE.starG nameCls))],
    cat [RE.grp 1 (RE.seq (RE.cls isAlphaC) (RE.starG nameCls)), wsPlus,
         RE.alt (lits "is") (lits "would be"), wsPlus,
         RE.alt (lits "better") (RE.alt (lits "preferred") (lits "recommended"))],
    cat [RE.wordB,
         RE.grp 1 (cat [RE.cls isAlphaC, RE.cls nameCls, RE.cls nameCls,
                        RE.starG nameCls]),
         RE.wordB, RE.starG isDot,
         RE.alt (lits "advantage") (RE.alt (lits "benefit")
                 (RE.alt (lits "better")
                         (RE.alt (lits "superior") (lits "preferred"))))] ]

/-- The four reasoning-extraction patterns (part_000 lines 1407-1416). -/
def reasoningPatterns : List RE :=
  [ cat [lits "Why?", wsStar, RE.grp 1 anyCls,
         RE.look (RE.alt (lits "Which wins") RE.eos)],
    cat [RE.alt (lits "Reason") (lits "Because"), RE.lit ':', wsStar,
         RE.grp 1 anyCls, RE.eos],
    cat [RE.alt (RE.seq (lits "win") (optG (RE.lit 's')))
                (RE.alt (lits "winner") (RE.alt (lits "better") (lits "preferred"))),
         optG (RE.lit '.'), wsStar, RE.grp 1 anyCls, RE.eos],
    RE.grp 1 (RE.starG (fun _ => true)) ]

def positiveWords : List String :=
  ["winner", "better", "preferred", "advantage", "superior", "recommended",
   "choose", "go with"]

/-- Model of new RegExp(str) for pattern strings over the character set
the application admits for technology names (letters, digits, whitespace,
dot, hyphen, plus, hash; enforced upstream by validateTechnologyFormat,
part_000 line 497).  A dot is the any-but-newline class, a plus is a
greedy repetition of the preceding atom and is a syntax error when there
is no preceding unquantified atom (as in JavaScript, where for example
new RegExp("c++") throws), every other admitted character is a literal.
Characters outside the admitted set are conservatively rejected; such
names never reach the parser in the application. -/
def techAtom (c : Char) : Option RE :=
  if c = '.' then some (RE.cls isDot)
  else if ('A' ≤ c && c ≤ 'Z') || ('a' ≤ c && c ≤ 'z') || ('0' ≤ c && c ≤ '9') ||
          isWs c || c = '-' || c = '#' then some (RE.lit c)
  else none

/-- Greedy plus applied to a single compiled atom (a literal or the dot
class); the star body repeats the same one-character atom. -/
def atomPlus (a : RE) : RE :=
  match a with
  | RE.lit c => RE.seq (RE.lit c) (RE.starG (fun x => x.toLower = c.toLower))
  | RE.cls p => RE.seq (RE.cls p) (RE.starG p)
  | r => r

def techRegexAux : List Char → Option RE → List RE → Option (List RE)
  | [], pending, acc => some (acc ++ pending.toList)
  | c :: t, pending, acc =>
    if c = '+' then
      match pending with
      | some a => techRegexAux t none (acc ++ [atomPlus a])
      | none => none
    else
      match techAtom c with
      | some a => techRegexAux t (some a) (acc ++ pending.toList)
      | none => none

def techRegexCompile (s : List Char) : Option RE :=
  (techRegexAux s none []).map cat

/-- Break condition of the scenario-location loop (part_000 line 1348). -/
def goodScen (r : List Char × Caps) : Bool :=
  match r.2.g1 with
  | some c => decide ((trimL c).length > 10)
  | none => false

/-- Break condition of the winner loop (part_000 line 1400). -/
def goodWin (r : List Char × Caps) : Bool :=
  match r.2.g1 with
  | some c => !(trimL c).isEmpty
  | none => false

/-- Break condition of the reasoning loop (part_000 line 1420). -/
def goodReason (r : List Char × Caps) : Bool :=
  match r.2.g1 with
  | some c => decide ((trimL c).length > 10)
  | none => false

/-- Locating one scenario's text: run the six patterns with the
break-or-keep-last loop, then apply the truthiness test of part_000 line
1358 (no match, or an empty capture, counts as missing). -/
def locateScenario (name : String) (tc : List Char) : Option (List Char) :=
  match fgol (fun p => jsMatch p tc) goodScen (scenPatterns name) with
  | some r =>
    match r.2.g1 with
    | some c => if c.isEmpty then none else some c
    | none => none
  | none => none

/-- The positive-context loop of the winner fallback (part_000 lines
1461-1474): the first positive word flanking exactly one of the two
names decides; some true means tech1 wins, some false tech2. -/
def posContext (t1l t2l cl : List Char) : List String → Option Bool
  | [] => none
  | w :: rest =>
    let wd := w.data
    let k1 := containsSub (t1l ++ ' ' :: wd) cl || containsSub (wd ++ ' ' :: t1l) cl
    let k2 := containsSub (t2l ++ ' ' :: wd) cl || containsSub (wd ++ ' ' :: t2l) cl
    if k1 && !k2 then some true
    else if k2 && !k1 then some false
    else posContext t1l t2l cl rest

/-- Winner fallback heuristic (part_000 lines 1450-1488), reached when no
winner pattern produced a usable capture.  Counting mentions constructs
a RegExp from each lowercased technology name, which is where a
malformed name (for example C++) makes JavaScript throw; the throw is
modelled as the error of the Except. -/
def fallbackWinner (sc : List Char) (tech1 tech2 : String) :
    Except JsErr (List Char) :=
  let t1l := lowerL tech1.data
  let t2l := lowerL tech2.data
  let cl := lowerL sc
  match techRegexCompile t1l with
  | none => .error (.invalidRegex ⟨t1l⟩)
  | some r1 =>
    let n1 := gCount r1 cl
    match techRegexCompile t2l with
    | none => .error (.invalidRegex ⟨t2l⟩)
    | some r2 =>
      let n2 := gCount r2 cl
      .ok (match posContext t1l t2l cl positiveWords with
        | some true => tech1.data
        | some false => tech2.data
        | none =>
          if n1 > n2 then tech1.data
          else if n2 > n1 then tech2.data
          else
            match jsMatch1 (cat [RE.wordB, RE.grp 1 (RE.alt r1 r2), RE.wordB]) sc with
            | some c => c
            | none => tech1.data)

/-- Parsing of a single scenario (one iteration of the loop at part_000
lines 1324-1518): locate the scenario text, extract winner and
reasoning with graceful degradation, falling back to the mention
heuristic for the winner and to the whole scenario text for the
reasoning.  The outer Except is the JavaScript exception layer. -/
def parseOneScenarioT (name : String) (tc : List Char) (tech1 tech2 : String) :
    Except JsErr (Except ScenErr SVerdict) :=
  match locateScenario name tc with
  | none => .ok (.error (.missingScenario name))
  | some cRaw =>
    let sc := trimL cRaw
    let winRes := fgol (fun p => jsMatch p sc) goodWin winnerPatterns
    let reasonRes := fgol (fun p => jsMatch p sc) goodReason reasoningPatterns
    let reasonCap : List Char :=
      match reasonRes with
      | some r =>
        match r.2.g1 with
        | some c => if (trimL c).length < 10 then sc else c
        | none => sc
      | none => sc
    let reasoning := trimL reasonCap
    let winCap : Option (List Char) :=
      match winRes with
      | some r =>
        match r.2.g1 with
        | some c => if (trimL c).isEmpty then none else some c
        | none => none
      | none => none
    match winCap with
    | some c =>
      .ok (.ok ⟨name, ⟨trimL c⟩, ⟨reasoning⟩, name ++ " scenario analysis"⟩)
    | none =>
      if tech1 = "" || tech2 = "" then .ok (.error (.noTechNames name))
      else
        match fallbackWinner sc tech1 tech2 with
        | .error e => .error e
        | .ok fb =>
          if fb.isEmpty then .ok (.error (.winnerUndetermined name))
          else .ok (.ok ⟨name, ⟨trimL fb⟩, ⟨reasoning⟩, name ++ " scenario analysis"⟩)

/-- parseScenarios before its outer catch (the try body, part_000 lines
1300-1532). -/
def parseScenariosT (content tech1 tech2 : String) : Except JsErr ScenResult :=
  if content = "" then .ok (.fail .invalidContent)
  else
    let tc := trimL content.data
    if tc.isEmpty then .ok (.fail .emptyContent)
    else
      match parseOneScenarioT "Move Fast Team" tc tech1 tech2 with
      | .error e => .error e
      | .ok (.error se) => .ok (.fail se)
      | .ok (.ok v1) =>
        match parseOneScenarioT "Scale Team" tc tech1 tech2 with
        | .error e => .error e
        | .ok (.error se) => .ok (.fail se)
        | .ok (.ok v2) =>
          match parseOneScenarioT "Budget Team" tc tech1 tech2 with
          | .error e => .error e
          | .ok (.error se) => .ok (.fail se)
          | .ok (.ok v3) =>
            let l := [v1, v2, v3]
            if l.length ≠ 3 then .ok (.fail (.wrongCount l.length))
            else .ok (.ok l)

/-- parseScenarios (part_000 lines 1293-1541): the try body with its outer
catch, which converts any JavaScript exception into an ordinary parse
failure. -/
def parseScenarios (content tech1 tech2 : String) : ScenResult :=
  match parseScenariosT content tech1 tech2 with
  | .ok r => r
  | .error _ => .fail .scenariosCaught

/-
Hidden Tax parsing, part_000 lines 1546-1689.
-/

structure HiddenTax where
  technology : String
  warning : String
  timeframe : String
  impact : String
deriving Repr, DecidableEq

inductive HTErr where
  | invalidContent
  | emptyContent
  | unparseable
  | emptyTechnology
  | emptyWarning
deriving Repr, DecidableEq

def notComma (c : Char) : Bool := !(c = ',')
def notDot (c : Char) : Bool := !(c = '.')
def noPunct3 (c : Char) : Bool := !(c = '.' || c = '!' || c = '?')

/-- Primary pattern (part_000 line 1575):
If you choose ws+ (no-comma)+ comma ws* be prepared to pay the tax of
ws+ (no-dot)+ ws+ in ws+ (no-dot)+ , flag i. -/
def htPrimary : RE :=
  cat [lits "If you choose", wsPlus, RE.grp 1 (plusG notComma), RE.lit ',', wsStar,
       lits "be prepared to pay the tax of", wsPlus, RE.grp 2 (plusG notDot),
       wsPlus, lits "in", wsPlus, RE.grp 3 (plusG notDot)]

/-- Alternative 0 (line 1588): relaxed punctuation, still with timeframe. -/
def htAlt0 : RE :=
  cat [lits "If you choose", wsPlus, RE.grp 1 (plusG notComma), optG (RE.lit ','),
       wsStar, lits "be prepared to pay the tax of", wsPlus,
       RE.grp 2 (plusG noPunct3), optG (RE.cls sentPunct), wsStar,
       lits "in", wsPlus, RE.grp 3 (plusG noPunct3)]

/-- Alternative 1 (line 1590): template without the timeframe clause. -/
def htAlt1 : RE :=
  cat [lits "If you choose", wsPlus, RE.grp 1 (plusG notComma), optG (RE.lit ','),
       wsStar, lits "be prepared to pay the tax of", wsPlus,
       RE.grp 2 (plusG noPunct3)]

/-- Alternative 2 (line 1592): choose ... tax ... of ... in ... . -/
def htAlt2 : RE :=
  cat [lits "choose", wsPlus, RE.grp 1 (plusG notComma), RE.starL isDot,
       lits "tax", RE.starL isDot, lits "of", wsPlus, RE.grp 2 (plusG noPunctNl),
       RE.starL isDot, lits "in", wsPlus, RE.grp 3 (plusG noPunctNl)]

/-- Alternative 3 (line 1594): tax of X with optional in-Y clause (the
captures here are groups 1 and 2, which the caller reads as technology
and warning). -/
def htAlt3 : RE :=
  cat [lits "tax", wsPlus, lits "of", wsPlus, RE.grp 1 (plusG noPunctNl),
       optG (cat [wsPlus, lits "in", wsPlus, RE.grp 2 (plusG noPunctNl)])]

/-- Alternative 4 (line 1596): a technology-like token, a downside keyword,
and trailing text. -/
def htAlt4 : RE :=
  cat [RE.grp 1 (RE.seq (RE.cls isAlphaC) (plusG nameCls)), RE.starL isDot,
       RE.alt (lits "tax") (RE.alt (lits "cost")
              (RE.alt (lits "downside") (lits "problem"))),
       RE.starL isDot, RE.grp 2 (plusG noPunctNl)]

/-- Up to n further greedy repetitions of a class (used to expand the
bounded repetition 2-to-20 of the last-resort technology pattern). -/
def upToG (p : Char → Bool) : Nat → RE
  | 0 => RE.eps
  | n + 1 => RE.alt (RE.seq (RE.cls p) (upToG p n)) RE.eps

/-- Last-resort technology token pattern (line 1623):
word-boundary ( [A-Za-z] [A-Za-z0-9 ws .+-] repeated 2 to 20 times )
word-boundary, global flag; only the first match is consumed. -/
def htTechRE : RE :=
  cat [RE.wordB,
       RE.grp 1 (cat [RE.cls isAlphaC, RE.cls nameCls, RE.cls nameCls,
                      upToG nameCls 18]),
       RE.wordB]

/-- Last-resort downside pattern (line 1627): one of the downside keywords
followed by the rest of the sentence; the caller uses the whole match. -/
def htWarnRE : RE :=
  cat [RE.grp 1 (RE.alt (lits "complexity") (RE.alt (lits "maintenance")
       (RE.alt (lits "learning curve") (RE.alt (lits "cost")
       (RE.alt (lits "overhead") (RE.alt (lits "difficulty")
       (RE.alt (lits "challenge") (RE.alt (lits "problem")
       (RE.alt (lits "issue") (lits "burden")))))))))),
       RE.starG noPunctNl]

/-- Truthiness of taxMatch[1] and taxMatch[2] (part_000 line 1602). -/
def htGood (r : List Char × Caps) : Bool :=
  (match r.2.g1 with | some c => !c.isEmpty | none => false) &&
  (match r.2.g2 with | some c => !c.isEmpty | none => false)

/-- The assignment taxMatch[3] = six months applied on break for
alternatives 0 to 3 when group 3 is absent or empty (line 1606). -/
def htDefault3 (r : List Char × Caps) : List Char × Caps :=
  match r.2.g3 with
  | some c => if c.isEmpty then (r.1, r.2.set 3 "6 months".data) else r
  | none => (r.1, r.2.set 3 "6 months".data)

/-- The alternative-pattern loop (part_000 lines 1586-1616): the loop
variable is reassigned by every attempt, breaking at the first
alternative whose groups 1 and 2 are truthy (installing the default
timeframe for alternatives before the last), and otherwise left holding
the final attempt's result. -/
def htAlternatives (tc : List Char) : Option (List Char × Caps) :=
  match jsMatch htAlt0 tc with
  | some r => if htGood r then some (htDefault3 r) else htNext1 tc
  | none => htNext1 tc
where
  htNext1 (tc : List Char) : Option (List Char × Caps) :=
    match jsMatch htAlt1 tc with
    | some r => if htGood r then some (htDefault3 r) else htNext2 tc
    | none => htNext2 tc
  htNext2 (tc : List Char) : Option (List Char × Caps) :=
    match jsMatch htAlt2 tc with
    | some r => if htGood r then some (htDefault3 r) else htNext3 tc
    | none => htNext3 tc
  htNext3 (tc : List Char) : Option (List Char × Caps) :=
    match jsMatch htAlt3 tc with
    | some r => if htGood r then some (htDefault3 r) else htNext4 tc
    | none => htNext4 tc
  htNext4 (tc : List Char) : Option (List Char × Caps) :=
    jsMatch htAlt4 tc

/-- parseHiddenTax (part_000 lines 1546-1689). -/
def parseHiddenTax (content : String) : Except HTErr HiddenTax :=
  if content = "" then .error .invalidContent
  else
    let tc := trimL content.data
    if tc.isEmpty then .error .emptyContent
    else
      let m0 := jsMatch htPrimary tc
      let fullPrimary :=
        match m0 with
        | some r =>
          (match r.2.g1 with | some c => !c.isEmpty | none => false) &&
          (match r.2.g2 with | some c => !c.isEmpty | none => false) &&
          (match r.2.g3 with | some c => !c.isEmpty | none => false)
        | none => false
      let mFinal := if fullPrimary then m0 else htAlternatives tc
      let finalGood :=
        match mFinal with
        | some r => htGood r
        | none => false
      if finalGood then
        match mFinal with
        | some r =>
          let technology := trimL (r.2.g1.getD [])
          let warning := trimL (r.2.g2.getD [])
          let timeframe : List Char :=
            match r.2.g3 with
            | some c => if c.isEmpty then "6 months".data else trimL c
            | none => "6 months".data
          if technology.isEmpty then .error .emptyTechnology
          else if warning.isEmpty then .error .emptyWarning
          else .ok ⟨⟨technology⟩, ⟨warning⟩, ⟨timeframe⟩,
                    ⟨warning ++ " expected in ".data ++ timeframe⟩⟩
        | none => .error .unparseable
      else
        match jsMatch1 htTechRE tc, jsMatch htWarnRE tc with
        | some techCap, some warnR =>
          let technology := trimL techCap
          let warning := trimL warnR.1
          .ok ⟨⟨technology⟩, ⟨warning⟩, "6 months",
               ⟨warning ++ " expected in 6 months".data⟩⟩
        | _, _ => .error .unparseable

/-
parseLLMResponse, part_000 lines 875-1006.  The timestamp that the source
stamps into every ApiError object (new Date().toISOString()) is modelled
by the now argument.
-/

structure MatchupR where
  technology1 : String
  technology2 : String
deriving Repr, DecidableEq

structure RefereeAnalysis where
  matchup : MatchupR
  taleOfTheTape : CompMatrix
  scenarios : List SVerdict
  hiddenTax : HiddenTax
  tieBreaker : String
deriving Repr, DecidableEq

inductive LLMFail where
  | emptyInput
  | badTechNames
  | sectionsFailed (e : ExtractErr)
  | taleFailed (e : TaleErr)
  | verdictsFailed (e : ScenErr)
  | hiddenTaxFailed (e : HTErr)
  | tieBreakerEmpty
deriving Repr, DecidableEq

/-- The failure object returned at every error site of parseLLMResponse:
code (always PARSING_ERROR), the stage diagnostic (standing for the
message and details strings), and the wall-clock timestamp the source
stamps with new Date().toISOString(). -/
structure ApiError where
  code : String
  fail : LLMFail
  timestamp : Nat
deriving Repr, DecidableEq

inductive LLMOutcome where
  | ok (a : RefereeAnalysis)
  | fail (e : ApiError)
deriving Repr, DecidableEq

def parseLLMResponse (response tech1 tech2 : String) (now : Nat) : LLMOutcome :=
  if response = "" || (trimL response.data).isEmpty then
    .fail ⟨"PARSING_ERROR", .emptyInput, now⟩
  else if tech1 = "" || tech2 = "" || (trimL tech1.data).isEmpty ||
          (trimL tech2.data).isEmpty then
    .fail ⟨"PARSING_ERROR", .badTechNames, now⟩
  else
    match extractSections response with
    | .error e => .fail ⟨"PARSING_ERROR", .sectionsFailed e, now⟩
    | .ok s =>
      match parseTaleOfTheTape s.taleOfTheTape tech1 tech2 with
      | .error e => .fail ⟨"PARSING_ERROR", .taleFailed e, now⟩
      | .ok tale =>
        match parseScenarios s.verdicts tech1 tech2 with
        | .fail e => .fail ⟨"PARSING_ERROR", .verdictsFailed e, now⟩
        | .ok scens =>
          match parseHiddenTax s.hiddenTax with
          | .error e => .fail ⟨"PARSING_ERROR", .hiddenTaxFailed e, now⟩
          | .ok ht =>
            let tb := trimL s.tieBreaker.data
            if tb.isEmpty then .fail ⟨"PARSING_ERROR", .tieBreakerEmpty, now⟩
            else .ok ⟨⟨tech1, tech2⟩, tale, scens, ht, ⟨tb⟩⟩

/-
Rate limiting and the POST handler skeleton, route.ts lines 38-155.
-/

/-- The module-level rate-limit map: client id to (count, resetTime). -/
abbrev RLState := List (String × Nat × Nat)

def rlLookup (st : RLState) (id : String) : Option (Nat × Nat) :=
  (st.find? (fun e => e.1 = id)).map (fun e => e.2)

def rlSet : RLState → String → Nat × Nat → RLState
  | [], id, v => [(id, v)]
  | (i, w) :: t, id, v =>
    if i = id then (id, v) :: t else (i, w) :: rlSet t id v

def RATE_LIMIT_WINDOW : Nat := 60000
def RATE_LIMIT_MAX_REQUESTS : Nat := 10

/-- checkRateLimit (route.ts lines 42-57): admit and open a fresh window on
first contact or after expiry, refuse at the cap, count otherwise. -/
def checkRateLimit (clientId : String) (now : Nat) (st : RLState) :
    Bool × RLState :=
  match rlLookup st clientId with
  | none => (true, rlSet st clientId (1, now + RATE_LIMIT_WINDOW))
  | some (count, resetTime) =>
    if now > resetTime then (true, rlSet st clientId (1, now + RATE_LIMIT_WINDOW))
    else if count ≥ RATE_LIMIT_MAX_REQUESTS then (false, st)
    else (true, rlSet st clientId (count + 1, resetTime))

/-- A sequence of rate-limit checks: events are (time, client id) in
arrival order; returns the final map and the verdicts in order. -/
def runRL : List (Nat × String) → RLState → RLState × List Bool
  | [], st => (st, [])
  | (now, id) :: t, st =>
    let r := checkRateLimit id now st
    let rest := runRL t r.2
    (rest.1, r.1 :: rest.2)

structure PostOutcome where
  status : Nat
  code : String
  llmCalled : Bool
  parseAttempted : Bool
  state : RLState
deriving Repr, DecidableEq

/-- The POST handler control flow (route.ts lines 63-155) up to the
external boundaries: the parsed request body and the prompt-package
validation verdict enter as arguments (they involve request I/O), as
does the model reply, which is only consumed when the flow reaches the
model call.  The flags record whether the model call and the parsing
stage were reached. -/
def POSTmodel (now : Nat) (clientId : String) (st : RLState)
    (body : Except String (String × String)) (promptValid : Bool)
    (llmReply : String) : PostOutcome :=
  let rl := checkRateLimit clientId now st
  if !rl.1 then ⟨429, "RATE_LIMIT_EXCEEDED", false, false, rl.2⟩
  else
    match body with
    | .error code => ⟨400, code, false, false, rl.2⟩
    | .ok (tech1, tech2) =>
      if trimL (lowerL tech1.data) = trimL (lowerL tech2.data) then
        ⟨400, "DUPLICATE_TECHNOLOGIES", false, false, rl.2⟩
      else if !promptValid then ⟨400, "VALIDATION_ERROR", false, false, rl.2⟩
      else
        match parseLLMResponse llmReply tech1 tech2 now with
        | .fail e => ⟨500, e.code, true, true, rl.2⟩
        | .ok _ => ⟨200, "OK", true, true, rl.2⟩

/-
Claim theorems.
-/

deriving instance DecidableEq for Except

/-- The outcome of a parse with the wall-clock timestamp of the failure
object erased. -/
def outcomeModuloTime : LLMOutcome → RefereeAnalysis ⊕ (String × LLMFail)
  | .ok a => .inl a
  | .fail e => .inr (e.code, e.fail)

/-- C2 counterexample: the claim asserts that two calls of parseLLMResponse
with identical reply and names yield structurally equal results, in
particular the same failure value on failure, with no use of wall-clock
time inside parsing.  But every failure object is stamped with
new Date().toISOString() (part_000 line 890 and every other error site),
modelled by the now argument, so the same failing call made at two
different wall-clock instants returns two structurally different failure
values. -/
theorem C2_counterexample :
    parseLLMResponse "x" "React" "Vue" 0 ≠ parseLLMResponse "x" "React" "Vue" 1 := by
  decide

/-- C2 amended: parsing is deterministic up to the diagnostic timestamp
field of the failure object: for a fixed reply and fixed names the
outcome with the timestamp erased is independent of the wall-clock
instant; in particular successful results are structurally equal, and
failure values agree in everything except the timestamp. -/
theorem C2_amended (r t1 t2 : String) (n n' : Nat) :
    outcomeModuloTime (parseLLMResponse r t1 t2 n) =
    outcomeModuloTime (parseLLMResponse r t1 t2 n') := by
  unfold parseLLMResponse
  split
  · rfl
  · split
    · rfl
    · split
      · rfl
      · split
        · rfl
        · split
          · rfl
          · split
            · rfl
            · dsimp only
              split <;> rfl

/-- The first section, in scan order, whose pattern fails to match the
trimmed reply or matches with content that trims to nothing. -/
def firstBad (tr : List Char) : Option SectionKey :=
  sectionOrder.find? (fun k => !goodSection k tr)

theorem badSection_of_none {k : SectionKey} {tr : List Char}
    (h : runSection k tr = none) : (!goodSection k tr) = true := by
  unfold goodSection
  rw [h]
  rfl

theorem badSection_of_empty {k : SectionKey} {tr c : List Char}
    (h : runSection k tr = some c) (he : (trimL c).isEmpty = true) :
    (!goodSection k tr) = true := by
  unfold goodSection
  rw [h]
  simp [he]

theorem notBadSection {k : SectionKey} {tr c : List Char}
    (h : runSection k tr = some c) (he : (trimL c).isEmpty = false) :
    (!goodSection k tr) = false := by
  unfold goodSection
  rw [h]
  simp [he]

/-- C1 counterexample: the claim asserts that for every raw reply the
extraction either yields all five sections or a failure naming the first
missing or empty section.  The whitespace-only reply (a non-empty
string) is refused up front with the empty-response failure (part_000
lines 1033-1039), which names no section at all. -/
theorem C1_counterexample :
    extractSections " " = .error .emptyResponse ∧
    ExtractErr.emptyResponse ∉
      [ExtractErr.missingSection .matchup, ExtractErr.missingSection .taleOfTheTape,
       ExtractErr.missingSection .verdicts, ExtractErr.missingSection .hiddenTax,
       ExtractErr.missingSection .tieBreaker] := by
  refine ⟨by decide, by decide⟩

/-- C1 amended: for a reply that does not trim to the empty string, the
extraction returns either all five sections with non-empty trimmed
content, or a failure naming exactly the first failing section in the
fixed scan order matchup, taleOfTheTape, verdicts, hiddenTax,
tieBreaker, where a heading match whose capture trims to nothing counts
as failing exactly like a missing heading; a reply that trims to the
empty string is instead refused with the empty-response failure before
any section is scanned.  No partial section set is ever returned. -/
theorem C1_amended (r : String) :
    ((trimL r.data).isEmpty = true → extractSections r = .error .emptyResponse) ∧
    ((trimL r.data).isEmpty = false →
      ∀ k, firstBad (trimL r.data) = some k →
        extractSections r = .error (.missingSection k)) ∧
    ((trimL r.data).isEmpty = false → firstBad (trimL r.data) = none →
      ∃ d, extractSections r = .ok d ∧ d.matchup ≠ "" ∧ d.taleOfTheTape ≠ "" ∧
        d.verdicts ≠ "" ∧ d.hiddenTax ≠ "" ∧ d.tieBreaker ≠ "") := by
  have main : (trimL r.data).isEmpty = false →
      (∀ k, firstBad (trimL r.data) = some k →
        extractSections r = .error (.missingSection k)) ∧
      (firstBad (trimL r.data) = none →
        ∃ d, extractSections r = .ok d ∧ d.matchup ≠ "" ∧ d.taleOfTheTape ≠ "" ∧
          d.verdicts ≠ "" ∧ d.hiddenTax ≠ "" ∧ d.tieBreaker ≠ "") := by
    intro h
    unfold extractSections firstBad sectionOrder
    dsimp only
    rw [h]
    simp only [Bool.false_eq_true, if_false, List.find?]
    rcases h1 : runSection .matchup (trimL r.data) with _ | c1
    · simp only [badSection_of_none h1]
      exact ⟨fun k hk => by cases hk; rfl, fun hk => by cases hk⟩
    · rcases e1 : (trimL c1).isEmpty with _ | _
      · simp only [notBadSection h1 e1, e1, Bool.false_eq_true, if_false]
        rcases h2 : runSection .taleOfTheTape (trimL r.data) with _ | c2
        · simp only [badSection_of_none h2]
          exact ⟨fun k hk => by cases hk; rfl, fun hk => by cases hk⟩
        · rcases e2 : (trimL c2).isEmpty with _ | _
          · simp only [notBadSection h2 e2, e2, Bool.false_eq_true, if_false]
            rcases h3 : runSection .verdicts (trimL r.data) with _ | c3
            · simp only [badSection_of_none h3]
              exact ⟨fun k hk => by cases hk; rfl, fun hk => by cases hk⟩
            · rcases e3 : (trimL c3).isEmpty with _ | _
              · simp only [notBadSection h3 e3, e3, Bool.false_eq_true, if_false]
                rcases h4 : runSection .hiddenTax (trimL r.data) with _ | c4
                · simp only [badSection_of_none h4]
                  exact ⟨fun k hk => by cases hk; rfl, fun hk => by cases hk⟩
                · rcases e4 : (trimL c4).isEmpty with _ | _
                  · simp only [notBadSection h4 e4, e4, Bool.false_eq_true, if_false]
                    rcases h5 : runSection .tieBreaker (trimL r.data) with _ | c5
                    · simp only [badSection_of_none h5]
                      exact ⟨fun k hk => by cases hk; rfl, fun hk => by cases hk⟩
                    · rcases e5 : (trimL c5).isEmpty with _ | _
                      · simp only [notBadSection h5 e5, e5, Bool.false_eq_true, if_false]
                        constructor
                        · intro k hk
                          cases hk
                        · intro hx
                          refine ⟨_, rfl, ?_, ?_, ?_, ?_, ?_⟩ <;>
                            simp only [ne_eq, String.ext_iff] <;>
                              intro hcon <;>
                                simp_all [List.isEmpty_iff]
                      · simp only [badSection_of_empty h5 e5, e5, if_true]
                        exact ⟨fun k hk => by cases hk; rfl, fun hk => by cases hk⟩
                  · simp only [badSection_of_empty h4 e4, e4, if_true]
                    exact ⟨fun k hk => by cases hk; rfl, fun hk => by cases hk⟩
              · simp only [badSection_of_empty h3 e3, e3, if_true]
                exact ⟨fun k hk => by cases hk; rfl, fun hk => by cases hk⟩
          · simp only [badSection_of_empty h2 e2, e2, if_true]
            exact ⟨fun k hk => by cases hk; rfl, fun hk => by cases hk⟩
      · simp only [badSection_of_empty h1 e1, e1, if_true]
        exact ⟨fun k hk => by cases hk; rfl, fun hk => by cases hk⟩
  refine ⟨?_, fun h => (main h).1, fun h => (main h).2⟩
  intro h
  unfold extractSections
  dsimp only
  rw [h]
  simp

/-- The canonical tape table used to exercise single-row deletion, with the
row for the dimension named d removed. -/
def tapeWithout (d : String) : String :=
  let rows := [("Speed", "| Speed | S1 | S2 |"),
               ("Cost", "| Cost | C1 | C2 |"),
               ("Developer Experience", "| Developer Experience | D1 | D2 |"),
               ("Scalability", "| Scalability | X1 | X2 |"),
               ("Maintainability", "| Maintainability | M1 | M2 |")]
  "| Dim | A | B |\n|---|---|---|\n" ++
    String.intercalate "\n" ((rows.filter (fun r => r.1 ≠ d)).map (fun r => r.2))

/-- C4: the dimension-matrix parser succeeds exactly when all five
dimensions end up populated, and otherwise fails with an error carrying
the canonical label of every still-missing dimension (each label listed
if and only if its dimension is unpopulated, in the fixed order of the
final check); and for the canonical tape text with exactly one
dimension's row deleted, the failure names exactly that one dimension
while the other four parse to their exact original descriptors. -/
theorem C4_matrix_completeness :
    (∀ m : CompMatrix,
      ("Speed" ∈ missingDims m ↔ m.speed = none) ∧
      ("Cost" ∈ missingDims m ↔ m.cost = none) ∧
      ("Developer Experience" ∈ missingDims m ↔ m.developerExperience = none) ∧
      ("Scalability" ∈ missingDims m ↔ m.scalability = none) ∧
      ("Maintainability" ∈ missingDims m ↔ m.maintainability = none)) ∧
    (∀ content t1 t2, content ≠ "" → (trimL content.data).isEmpty = false →
      (trimL t1.data).isEmpty = false → (trimL t2.data).isEmpty = false →
      (missingDims (collectMatrix (trimL content.data)) = [] →
        parseTaleOfTheTape content t1 t2 = .ok (collectMatrix (trimL content.data))) ∧
      (missingDims (collectMatrix (trimL content.data)) ≠ [] →
        parseTaleOfTheTape content t1 t2 =
          .error (.missingData (missingDims (collectMatrix (trimL content.data)))))) ∧
    (parseTaleOfTheTape (tapeWithout "Speed") "React" "Vue" =
       .error (.missingData ["Speed"]) ∧
     (collectMatrix (trimL (tapeWithout "Speed").data)).cost = some ⟨"C1", "C2"⟩ ∧
     (collectMatrix (trimL (tapeWithout "Speed").data)).developerExperience =
       some ⟨"D1", "D2"⟩ ∧
     (collectMatrix (trimL (tapeWithout "Speed").data)).scalability = some ⟨"X1", "X2"⟩ ∧
     (collectMatrix (trimL (tapeWithout "Speed").data)).maintainability =
       some ⟨"M1", "M2"⟩) ∧
    (parseTaleOfTheTape (tapeWithout "Cost") "React" "Vue" =
       .error (.missingData ["Cost"]) ∧
     (collectMatrix (trimL (tapeWithout "Cost").data)).speed = some ⟨"S1", "S2"⟩) ∧
    (parseTaleOfTheTape (tapeWithout "Developer Experience") "React" "Vue" =
       .error (.missingData ["Developer Experience"])) ∧
    (parseTaleOfTheTape (tapeWithout "Scalability") "React" "Vue" =
       .error (.missingData ["Scalability"])) ∧
    (parseTaleOfTheTape (tapeWithout "Maintainability") "React" "Vue" =
       .error (.missingData ["Maintainability"])) := by
  refine ⟨?_, ?_, by decide, by decide, by decide, by decide, by decide⟩
  · intro m
    obtain ⟨s, c, d, sc, mn⟩ := m
    cases s <;> cases c <;> cases d <;> cases sc <;> cases mn <;>
      simp [missingDims]
  · intro content t1 t2 h1 h2 h3 h4
    unfold parseTaleOfTheTape
    rw [if_neg h1]
    dsimp only
    rw [h2]
    simp only [Bool.false_eq_true, if_false, h3, h4, Bool.or_self]
    constructor
    · intro hm
      rw [hm]
      rfl
    · intro hm
      rw [if_neg (by simpa [List.isEmpty_iff] using hm)]

/-- C4 witness: the second conjunct applied at a tape text that populates
no dimension at all. -/
theorem C4_matrix_completeness_witness :
    parseTaleOfTheTape "z" "React" "Vue" =
      .error (.missingData (missingDims (collectMatrix (trimL "z".data)))) := by
  exact (C4_matrix_completeness.2.1 "z" "React" "Vue" (by decide) (by decide)
    (by decide) (by decide)).2 (by decide)

theorem extract_ok_trim {r : String} {s : SectionData}
    (h : extractSections r = .ok s) : (trimL r.data).isEmpty = false := by
  unfold extractSections at h
  dsimp only at h
  rcases he : (trimL r.data).isEmpty with _ | _
  · rfl
  · rw [he] at h
    simp at h

/-- A complete, well-formed model reply used as the concrete witness input
for the success path of the pipeline. -/
def docA : String :=
  "### 1. Matchup\nA duel.\n### 2. Tale of the Tape\n| Dim | A | B |\n|---|---|---|\n| Speed | S1 | S2 |\n| Cost | C1 | C2 |\n| Developer Experience | D1 | D2 |\n| Scalability | X1 | X2 |\n| Maintainability | M1 | M2 |\n### 3. Verdicts\n**Scenario A (The \x27Move Fast\x27 Team):** Which wins? React. Why? Speedy tooling wins.\n**Scenario B (The \x27Scale\x27 Team):** Which wins? React. Why? Giant proven installs.\n**Scenario C (The \x27Budget\x27 Team):** Which wins? Vue. Why? Cheaper hires exist.\n### 4. Hidden Tax\nIf you choose React, be prepared to pay the tax of churn in 6 months.\n### 5. Tie-Breaker\nWhich would you regret less?"

def isOkOut : LLMOutcome → Bool
  | .ok _ => true
  | .fail _ => false

/-- C10: on every successful parse the matchup field of the result holds
exactly the caller-supplied technology names; and the text captured for
the matchup section never influences anything except whether section
extraction succeeds: two replies whose extractions both succeed and
agree on the other four sections parse to identical results, whatever
their matchup texts. -/
theorem C10_matchup_passthrough :
    (∀ r t1 t2 n a, parseLLMResponse r t1 t2 n = .ok a →
       a.matchup = ⟨t1, t2⟩) ∧
    (∀ r r' t1 t2 n s s',
       extractSections r = .ok s → extractSections r' = .ok s' →
       s.taleOfTheTape = s'.taleOfTheTape → s.verdicts = s'.verdicts →
       s.hiddenTax = s'.hiddenTax → s.tieBreaker = s'.tieBreaker →
       parseLLMResponse r t1 t2 n = parseLLMResponse r' t1 t2 n) := by
  constructor
  · intro r t1 t2 n a h
    unfold parseLLMResponse at h
    split at h
    · cases h
    · split at h
      · cases h
      · split at h
        · cases h
        · split at h
          · cases h
          · split at h
            · cases h
            · split at h
              · cases h
              · dsimp only at h
                split at h
                · cases h
                · cases h
                  rfl
  · intro r r' t1 t2 n s s' h1 h2 e1 e2 e3 e4
    have hr := extract_ok_trim h1
    have hr' := extract_ok_trim h2
    have hne : r ≠ "" := by
      intro hq
      rw [hq] at hr
      exact absurd hr (by decide)
    have hne' : r' ≠ "" := by
      intro hq
      rw [hq] at hr'
      exact absurd hr' (by decide)
    have hA : ¬ ((decide (r = "") || (trimL r.data).isEmpty) = true) := by
      simp [hne, hr]
    have hA' : ¬ ((decide (r' = "") || (trimL r'.data).isEmpty) = true) := by
      simp [hne', hr']
    unfold parseLLMResponse
    rw [if_neg hA, if_neg hA']
    by_cases ht : (decide (t1 = "") || decide (t2 = "") || (trimL t1.data).isEmpty ||
        (trimL t2.data).isEmpty) = true
    · rw [if_pos ht, if_pos ht]
    · rw [if_neg ht, if_neg ht, h1, h2]
      dsimp only
      rw [e1, e2, e3, e4]

/-- C10 witness: the success-path conjunct applied at the concrete reply
docA, and the noninterference conjunct applied at its extraction. -/
theorem C10_matchup_passthrough_witness :
    (∃ a, parseLLMResponse docA "React" "Vue" 0 = .ok a ∧
       a.matchup = ⟨"React", "Vue"⟩) ∧
    parseLLMResponse docA "React" "Vue" 0 = parseLLMResponse docA "React" "Vue" 0 := by
  constructor
  · rcases hp : parseLLMResponse docA "React" "Vue" 0 with a | e
    · exact ⟨a, rfl, C10_matchup_passthrough.1 docA "React" "Vue" 0 a hp⟩
    · have hok : isOkOut (parseLLMResponse docA "React" "Vue" 0) = true := by decide
      simp only [hp, isOkOut] at hok
      exact Bool.noConfusion hok
  · rcases hs : extractSections docA with e | s
    · have hok : (extractSections docA).isOk = true := by decide
      simp only [hs, Except.isOk, Except.toBool] at hok
      exact Bool.noConfusion hok
    · exact C10_matchup_passthrough.2 docA docA "React" "Vue" 0 s s hs hs
        rfl rfl rfl rfl

/-- The verdicts-section text used to exercise the malformed-name throw:
the Move Fast scenario is locatable but its text offers no winner
phrasing, so the parser reaches the mention-counting fallback, where
new RegExp on the lowercased name c++ throws. -/
def vCpp : String :=
  "**Scenario A (The \x27Move Fast\x27 Team):** 123456789012345"

/-- A complete reply whose verdicts section is vCpp. -/
def docCpp : String :=
  "### 1. Matchup\nA duel.\n### 2. Tale of the Tape\n| Dim | A | B |\n|---|---|---|\n| Speed | S1 | S2 |\n| Cost | C1 | C2 |\n| Developer Experience | D1 | D2 |\n| Scalability | X1 | X2 |\n| Maintainability | M1 | M2 |\n### 3. Verdicts\n**Scenario A (The \x27Move Fast\x27 Team):** 123456789012345\n### 4. Hidden Tax\nIf you choose Java, be prepared to pay the tax of churn in 6 months.\n### 5. Tie-Breaker\nWhich would you regret less?"

/-- C7: parseLLMResponse is total: every call returns a success or a
failure value; every JavaScript exception of the throwing layer is
absorbed by the catch of parseScenarios into an ordinary failure; and
concretely, with the name C++ (whose lowercasing c++ is a malformed
RegExp pattern whose construction throws), the throwing layer really
does raise the exception while the entry point still returns an
ordinary failure value. -/
theorem C7_total_no_escape :
    (∀ r t1 t2 n, (∃ a, parseLLMResponse r t1 t2 n = .ok a) ∨
       (∃ e, parseLLMResponse r t1 t2 n = .fail e)) ∧
    (∀ content t1 t2, parseScenarios content t1 t2 =
        match parseScenariosT content t1 t2 with
        | .ok r => r
        | .error _ => .fail .scenariosCaught) ∧
    parseScenariosT vCpp "C++" "Java" = .error (.invalidRegex "c++") ∧
    parseLLMResponse docCpp "C++" "Java" 0 =
      .fail ⟨"PARSING_ERROR", .verdictsFailed .scenariosCaught, 0⟩ := by
  refine ⟨?_, fun _ _ _ => rfl, by decide, by decide⟩
  intro r t1 t2 n
  cases h : parseLLMResponse r t1 t2 n with
  | ok a => exact .inl ⟨a, rfl⟩
  | fail e => exact .inr ⟨e, rfl⟩

/-
Engine lemmas supporting the scenario-fallback analysis.
-/

theorem mem_starGList {p : Char → Bool} {s : List Char} {n : Nat}
    (h : n ∈ starGList p s) : n ≤ s.length := by
  induction s generalizing n with
  | nil => simp [starGList] at h; omega
  | cons c t ih =>
    simp only [starGList] at h
    split at h
    · rcases List.mem_append.1 h with h | h
      · rcases List.mem_map.1 h with ⟨m, hm, rfl⟩
        have := ih hm
        simp
        omega
      · simp at h
        omega
    · simp at h
      omega

theorem mem_starLList {p : Char → Bool} {s : List Char} {n : Nat}
    (h : n ∈ starLList p s) : n ≤ s.length := by
  induction s generalizing n with
  | nil => simp [starLList] at h; omega
  | cons c t ih =>
    simp only [starLList] at h
    split at h
    · rcases List.mem_cons.1 h with h | h
      · omega
      · rcases List.mem_map.1 h with ⟨m, hm, rfl⟩
        have := ih hm
        simp
        omega
    · simp at h
      omega

/-- No match consumes more characters than the subject has. -/
theorem mAll_le_length {re : RE} :
    ∀ {prev : Option Char} {s : List Char} {caps : Caps} {r : Nat × Caps},
      r ∈ mAll re prev s caps → r.1 ≤ s.length := by
  induction re with
  | eps => intro prev s caps r h; simp [mAll] at h; simp [h]
  | lit c =>
    intro prev s caps r h
    cases s with
    | nil => simp [mAll] at h
    | cons x t =>
      simp only [mAll] at h
      split at h <;> simp at h
      simp [h]
  | cls p =>
    intro prev s caps r h
    cases s with
    | nil => simp [mAll] at h
    | cons x t =>
      simp only [mAll] at h
      split at h <;> simp at h
      simp [h]
  | seq a b iha ihb =>
    intro prev s caps r h
    simp only [mAll] at h
    rcases List.mem_flatMap.1 h with ⟨r1, hr1, hr⟩
    rcases List.mem_map.1 hr with ⟨r2, hr2, heq⟩
    subst heq
    have h1 := iha hr1
    have h2 := ihb hr2
    simp only [List.length_drop] at h2
    simp
    omega
  | alt a b iha ihb =>
    intro prev s caps r h
    rcases List.mem_append.1 h with h | h
    · exact iha h
    · exact ihb h
  | grp i r ih =>
    intro prev s caps x h
    simp only [mAll] at h
    rcases List.mem_map.1 h with ⟨r2, hr2, heq⟩
    subst heq
    have := ih hr2
    simpa using this
  | starG p =>
    intro prev s caps r h
    simp only [mAll] at h
    rcases List.mem_map.1 h with ⟨n, hn, heq⟩
    subst heq
    exact mem_starGList hn
  | starL p =>
    intro prev s caps r h
    simp only [mAll] at h
    rcases List.mem_map.1 h with ⟨n, hn, heq⟩
    subst heq
    exact mem_starLList hn
  | look r ih =>
    intro prev s caps x h
    simp only [mAll] at h
    split at h
    · simp at h
    · simp at h
      simp [h]
  | eos =>
    intro prev s caps r h
    simp only [mAll] at h
    split at h <;> simp at h
    simp [h]
  | wordB =>
    intro prev s caps r h
    simp only [mAll] at h
    split at h <;> simp at h
    simp [h]

/-- A pattern that consumes at least one character in every match. -/
def ConsumesOne (re : RE) : Prop :=
  ∀ prev s caps r, r ∈ mAll re prev s caps → 1 ≤ r.1

theorem consumesOne_lit (c : Char) : ConsumesOne (.lit c) := by
  intro prev s caps r h
  cases s with
  | nil => simp [mAll] at h
  | cons x t =>
    simp only [mAll] at h
    split at h <;> simp at h
    simp [h]

theorem consumesOne_cls (p : Char → Bool) : ConsumesOne (.cls p) := by
  intro prev s caps r h
  cases s with
  | nil => simp [mAll] at h
  | cons x t =>
    simp only [mAll] at h
    split at h <;> simp at h
    simp [h]

theorem consumesOne_seqLeft {a : RE} (b : RE) (ha : ConsumesOne a) :
    ConsumesOne (.seq a b) := by
  intro prev s caps r h
  simp only [mAll] at h
  rcases List.mem_flatMap.1 h with ⟨r1, hr1, hr⟩
  rcases List.mem_map.1 hr with ⟨r2, hr2, heq⟩
  subst heq
  have := ha _ _ _ _ hr1
  simp
  omega

theorem consumesOne_alt {a b : RE} (ha : ConsumesOne a) (hb : ConsumesOne b) :
    ConsumesOne (.alt a b) := by
  intro prev s caps r h
  rcases List.mem_append.1 h with h | h
  · exact ha _ _ _ _ h
  · exact hb _ _ _ _ h

theorem consumesOne_techAtom {c : Char} {a : RE} (h : techAtom c = some a) :
    ConsumesOne a ∧ ConsumesOne (atomPlus a) := by
  unfold techAtom at h
  split at h
  · cases h
    exact ⟨consumesOne_cls _, consumesOne_seqLeft _ (consumesOne_cls _)⟩
  · split at h
    · cases h
      exact ⟨consumesOne_lit _, consumesOne_seqLeft _ (consumesOne_lit _)⟩
    · cases h

theorem techRegexAux_spec :
    ∀ (s : List Char) (pending : Option RE) (acc : List RE) (l : List RE),
      (∀ re ∈ acc, ConsumesOne re) → (∀ re ∈ pending.toList, ConsumesOne re) →
      techRegexAux s pending acc = some l →
      (∀ re ∈ l, ConsumesOne re) ∧ (l = [] → acc = [] ∧ pending = none ∧ s = []) := by
  intro s
  induction s with
  | nil =>
    intro pending acc l hacc hpend h
    simp only [techRegexAux] at h
    cases h
    constructor
    · intro re hre
      rcases List.mem_append.1 hre with h | h
      · exact hacc _ h
      · exact hpend _ h
    · intro hl
      rcases List.append_eq_nil.1 hl with ⟨h1, h2⟩
      refine ⟨h1, ?_, rfl⟩
      cases pending <;> simp_all
  | cons c t ih =>
    intro pending acc l hacc hpend h
    simp only [techRegexAux] at h
    split at h
    · cases pending with
      | none => simp at h
      | some a =>
        dsimp only at h
        have ha : ConsumesOne (atomPlus a) := by
          have hc := hpend a (by simp)
          unfold atomPlus
          split
          · exact consumesOne_seqLeft _ (consumesOne_lit _)
          · exact consumesOne_seqLeft _ (consumesOne_cls _)
          · exact hc
        have hrec := ih none (acc ++ [atomPlus a]) l
          (by intro re hre
              rcases List.mem_append.1 hre with h1 | h1
              · exact hacc _ h1
              · simp at h1
                subst h1
                exact ha)
          (by intro re hre; simp at hre) h
        refine ⟨hrec.1, fun hl => ?_⟩
        have := (hrec.2 hl).1
        simp at this
    · rcases hat : techAtom c with _ | a
      · rw [hat] at h
        cases h
      · rw [hat] at h
        dsimp only at h
        have hrec := ih (some a) (acc ++ pending.toList) l
          (by intro re hre
              rcases List.mem_append.1 hre with h1 | h1
              · exact hacc _ h1
              · exact hpend _ h1)
          (by intro re hre
              simp at hre
              subst hre
              exact (consumesOne_techAtom hat).1) h
        refine ⟨hrec.1, fun hl => ?_⟩
        cases (hrec.2 hl).2.1

theorem compile_consumesOne {t : List Char} {re : RE} (h0 : t ≠ [])
    (h : techRegexCompile t = some re) : ConsumesOne re := by
  unfold techRegexCompile at h
  cases haux : techRegexAux t none [] with
  | none => rw [haux] at h; cases h
  | some l =>
    rw [haux] at h
    simp only [Option.map] at h
    have hre : cat l = re := by injection h
    subst hre
    have hs := techRegexAux_spec t none [] l (by simp) (by simp) haux
    cases l with
    | nil => exact absurd (hs.2 rfl).2.2 h0
    | cons x rest =>
      have hx := hs.1 x (by simp)
      exact consumesOne_seqLeft _ hx

theorem searchAux_mem {re : RE} :
    ∀ {prev : Option Char} {s : List Char} {pos p n : Nat} {cps : Caps},
      searchAux re prev s pos = some (p, n, cps) →
      ∃ prev' s', (n, cps) ∈ mAll re prev' s' {} := by
  intro prev s
  induction s generalizing prev with
  | nil =>
    intro pos p n cps h
    unfold searchAux at h
    cases hm : mAll re prev [] {} with
    | nil => rw [hm] at h; cases h
    | cons r rest =>
      rw [hm] at h
      dsimp only at h
      injection h with h2
      have e1 : r.1 = n := congrArg (fun x => x.2.1) h2
      have e2 : r.2 = cps := congrArg (fun x => x.2.2) h2
      refine ⟨prev, [], ?_⟩
      rw [hm, ← e1, ← e2]
      simp
  | cons c t ih =>
    intro pos p n cps h
    unfold searchAux at h
    cases hm : mAll re prev (c :: t) {} with
    | nil =>
      rw [hm] at h
      exact ih h
    | cons r rest =>
      rw [hm] at h
      dsimp only at h
      injection h with h2
      have e1 : r.1 = n := congrArg (fun x => x.2.1) h2
      have e2 : r.2 = cps := congrArg (fun x => x.2.2) h2
      refine ⟨prev, c :: t, ?_⟩
      rw [hm, ← e1, ← e2]
      simp

/-- The results of the trailing word-boundary piece leave captures
untouched. -/
theorem caps_preserved_wordB_eps {prev : Option Char} {s : List Char}
    {caps : Caps} {r : Nat × Caps}
    (h : r ∈ mAll (.seq .wordB .eps) prev s caps) : r.2 = caps := by
  simp only [mAll] at h
  split at h <;> simp at h
  simp [h]

theorem prevAfter_zero (prev : Option Char) (s : List Char) :
    prevAfter prev s 0 = prev := by
  simp [prevAfter]

/-- The word-boundary-delimited first-mention pattern of the winner
fallback never yields an empty capture when the compiled alternation
consumes at least one character. -/
theorem techPattern_capture_ne_nil {r1 r2 : RE}
    (hA : ConsumesOne (.alt r1 r2)) {s c : List Char}
    (h : jsMatch1 (cat [RE.wordB, RE.grp 1 (RE.alt r1 r2), RE.wordB]) s = some c) :
    c ≠ [] := by
  unfold jsMatch1 jsMatch jsSearch at h
  cases hs : searchAux (cat [RE.wordB, RE.grp 1 (RE.alt r1 r2), RE.wordB]) none s 0 with
  | none => rw [hs] at h; cases h
  | some v =>
    rw [hs] at h
    obtain ⟨p, n, cps⟩ := v
    rcases searchAux_mem hs with ⟨prev', s', hmem⟩
    dsimp only at h
    have hcap : cps.g1 = some c := by
      simpa using h
    simp only [cat, List.foldr] at hmem
    simp only [mAll] at hmem
    split at hmem
    · rcases List.mem_flatMap.1 hmem with ⟨rb, hrb, hx⟩
      simp only [List.mem_singleton] at hrb
      subst hrb
      rcases List.mem_map.1 hx with ⟨rx, hrx, heq⟩
      rcases List.mem_flatMap.1 hrx with ⟨rg, hrg, hx2⟩
      rcases List.mem_map.1 hrg with ⟨ra, hra, heqg⟩
      rcases List.mem_map.1 hx2 with ⟨rz, hrz, heqz⟩
      rcases List.mem_flatMap.1 hrz with ⟨rb2, hrb2, hx3⟩
      split at hrb2
      · simp only [List.mem_singleton] at hrb2
        subst hrb2
        rcases List.mem_map.1 hx3 with ⟨rz2, hrz2, heqz2⟩
        simp only [List.mem_singleton] at hrz2
        subst hrz2
        have hra' : ra ∈ mAll (.alt r1 r2) (prevAfter prev' s'
            ((0 : Nat), ({} : Caps)).1) (s'.drop ((0 : Nat), ({} : Caps)).1)
            ((0 : Nat), ({} : Caps)).2 := hra
        have hone : 1 ≤ ra.1 := hA _ _ _ _ hra'
        have hlen : ra.1 ≤ (s'.drop ((0 : Nat), ({} : Caps)).1).length :=
          mAll_le_length hra'
        -- trace the capture value through the equalities
        have ecps : cps = ra.2.set 1 (List.take ra.1 s') := by
          have e1 : rx.2 = cps := by have h' := congrArg Prod.snd heq; simpa using h'
          have e2 : rz.2 = rx.2 := by have h' := congrArg Prod.snd heqz; simpa using h'
          have e3 : rz.2 = rg.2 := by
            have h' := congrArg Prod.snd heqz2; simpa using h'.symm
          have e4 : rg.2 = ra.2.set 1 (List.take ra.1 s') := by
            have h' := congrArg Prod.snd heqg; simpa using h'.symm
          rw [← e1, ← e2, e3, e4]
        rw [ecps] at hcap
        have : c = List.take ra.1 s' := by
          simpa [Caps.set] using hcap.symm
        subst this
        intro hnil
        rw [List.take_eq_nil_iff] at hnil
        simp only [List.drop_zero] at hlen
        rcases hnil with h0 | h0
        · omega
        · rw [h0] at hlen
          simp only [List.length_nil, Nat.le_zero] at hlen
          omega
      · simp at hrb2
    · simp at hmem

/-- A string different from the empty string has a nonempty character
list. -/
theorem data_ne_nil {s : String} (h : s ≠ "") : s.data ≠ [] := by
  intro hd
  apply h
  cases s with
  | mk d =>
    have hd' : d = [] := hd
    subst hd'
    rfl

theorem lowerL_ne_nil {t : List Char} (h : t ≠ []) : lowerL t ≠ [] := by
  intro hm
  exact h (List.map_eq_nil_iff.1 hm)

/-- When both technology names compile to mention-count patterns, the
winner fallback raises no exception and never returns an empty winner:
every branch yields one of the two (nonempty) input names or a nonempty
word-boundary-delimited first mention. -/
theorem fallbackWinner_ok {sc : List Char} {tech1 tech2 : String} {r1 r2 : RE}
    (h1 : tech1.data ≠ []) (h2 : tech2.data ≠ [])
    (hc1 : techRegexCompile (lowerL tech1.data) = some r1)
    (hc2 : techRegexCompile (lowerL tech2.data) = some r2) :
    ∃ fb, fallbackWinner sc tech1 tech2 = .ok fb ∧ fb ≠ [] := by
  have co1 : ConsumesOne r1 := compile_consumesOne (lowerL_ne_nil h1) hc1
  have co2 : ConsumesOne r2 := compile_consumesOne (lowerL_ne_nil h2) hc2
  unfold fallbackWinner
  dsimp only
  rw [hc1, hc2]
  dsimp only
  refine ⟨_, rfl, ?_⟩
  cases hp : posContext (lowerL tech1.data) (lowerL tech2.data) (lowerL sc)
      positiveWords with
  | some b =>
    cases b
    · exact h2
    · exact h1
  | none =>
    dsimp only
    split
    · exact h1
    split
    · exact h2
    cases hj : jsMatch1 (cat [RE.wordB, RE.grp 1 (RE.alt r1 r2), RE.wordB]) sc with
    | none => exact h1
    | some c => exact techPattern_capture_ne_nil (consumesOne_alt co1 co2) hj

/-- One scenario iteration never raises: it reports the scenario missing
exactly when the locator fails, and otherwise succeeds (winner and
reasoning extraction degrade instead of failing). -/
theorem parseOne_no_throw {name : String} {tc : List Char}
    {tech1 tech2 : String} {r1 r2 : RE}
    (h1 : tech1 ≠ "") (h2 : tech2 ≠ "")
    (hc1 : techRegexCompile (lowerL tech1.data) = some r1)
    (hc2 : techRegexCompile (lowerL tech2.data) = some r2) :
    (locateScenario name tc = none ∧
       parseOneScenarioT name tc tech1 tech2 = .ok (.error (.missingScenario name))) ∨
    (∃ v, parseOneScenarioT name tc tech1 tech2 = .ok (.ok v)) := by
  have hguard : (tech1 = "" || tech2 = "") = false := by simp [h1, h2]
  cases hloc : locateScenario name tc with
  | none =>
    left
    refine ⟨rfl, ?_⟩
    unfold parseOneScenarioT
    rw [hloc]
  | some cRaw =>
    right
    rcases @fallbackWinner_ok (trimL cRaw) tech1 tech2 r1 r2
      (data_ne_nil h1) (data_ne_nil h2) hc1 hc2 with ⟨fb, hfb, hfbne⟩
    have hfbe : fb.isEmpty = false := by
      cases fb
      · exact absurd rfl hfbne
      · rfl
    unfold parseOneScenarioT
    rw [hloc]
    dsimp only
    cases hw : fgol (fun p => jsMatch p (trimL cRaw)) goodWin winnerPatterns with
    | none =>
      dsimp only
      simp only [hguard, Bool.false_eq_true, if_false]
      rw [hfb]
      dsimp only
      simp only [hfbe, Bool.false_eq_true, if_false]
      exact ⟨_, rfl⟩
    | some r =>
      dsimp only
      cases hg : r.2.g1 with
      | none =>
        dsimp only
        simp only [hguard, Bool.false_eq_true, if_false]
        rw [hfb]
        dsimp only
        simp only [hfbe, Bool.false_eq_true, if_false]
        exact ⟨_, rfl⟩
      | some c =>
        dsimp only
        by_cases he : (trimL c).isEmpty = true
        · rw [if_pos he]
          simp only [hguard, Bool.false_eq_true, if_false]
          rw [hfb]
          dsimp only
          simp only [hfbe, Bool.false_eq_true, if_false]
          exact ⟨_, rfl⟩
        · rw [if_neg he]
          exact ⟨_, rfl⟩

/-- The try body of parseScenarios never raises when both
technology names compile, and then fails only on empty input or a
scenario whose text cannot be located. -/
theorem parseScenariosT_ok {content tech1 tech2 : String} {r1 r2 : RE}
    (h1 : tech1 ≠ "") (h2 : tech2 ≠ "")
    (hc1 : techRegexCompile (lowerL tech1.data) = some r1)
    (hc2 : techRegexCompile (lowerL tech2.data) = some r2) :
    ∃ r, parseScenariosT content tech1 tech2 = .ok r ∧
      ∀ e, r = .fail e →
        (e = .invalidContent ∧ content = "") ∨
        (e = .emptyContent ∧ (trimL content.data).isEmpty = true) ∨
        (∃ name, name ∈ scenarioNames ∧ e = .missingScenario name ∧
          locateScenario name (trimL content.data) = none) := by
  unfold parseScenariosT
  by_cases hco : content = ""
  · rw [if_pos hco]
    refine ⟨_, rfl, ?_⟩
    intro e he
    injection he with he
    exact .inl ⟨he.symm, hco⟩
  · rw [if_neg hco]
    dsimp only
    by_cases ht : (trimL content.data).isEmpty = true
    · rw [if_pos ht]
      refine ⟨_, rfl, ?_⟩
      intro e he
      injection he with he
      exact .inr (.inl ⟨he.symm, ht⟩)
    · rw [if_neg ht]
      rcases @parseOne_no_throw "Move Fast Team" (trimL content.data)
          tech1 tech2 r1 r2 h1 h2 hc1 hc2 with ⟨hl1, ho1⟩ | ⟨v1, ho1⟩
      · rw [ho1]
        refine ⟨_, rfl, ?_⟩
        intro e he
        injection he with he
        exact .inr (.inr ⟨"Move Fast Team", by simp [scenarioNames], he.symm, hl1⟩)
      · rw [ho1]
        dsimp only
        rcases @parseOne_no_throw "Scale Team" (trimL content.data)
            tech1 tech2 r1 r2 h1 h2 hc1 hc2 with ⟨hl2, ho2⟩ | ⟨v2, ho2⟩
        · rw [ho2]
          refine ⟨_, rfl, ?_⟩
          intro e he
          injection he with he
          exact .inr (.inr ⟨"Scale Team", by simp [scenarioNames], he.symm, hl2⟩)
        · rw [ho2]
          dsimp only
          rcases @parseOne_no_throw "Budget Team" (trimL content.data)
              tech1 tech2 r1 r2 h1 h2 hc1 hc2 with ⟨hl3, ho3⟩ | ⟨v3, ho3⟩
          · rw [ho3]
            refine ⟨_, rfl, ?_⟩
            intro e he
            injection he with he
            exact .inr (.inr ⟨"Budget Team", by simp [scenarioNames], he.symm, hl3⟩)
          · rw [ho3]
            dsimp only
            rw [if_neg (by simp)]
            refine ⟨_, rfl, ?_⟩
            intro e he
            exact ScenResult.noConfusion he

/-- A verdicts text in which all three scenarios are locatable. -/
def vAll : String :=
  "**Scenario A (The \x27Move Fast\x27 Team):** aaa bbb ccc ddddd eee\n**Scenario B (The \x27Scale\x27 Team):** fff ggg hhh iiiii jjj\n**Scenario C (The \x27Budget\x27 Team):** kkk lll mmm nnnnn ooo"

/-- C3 counterexample: the claim asserts parseScenarios fails only when
some scenario text cannot be located.  Here all three scenario texts are
locatable, yet with the technology name C++ the parse fails: the winner
fallback builds a RegExp from the lowercased name c++, whose construction
throws, and the outer catch converts the exception into a failure. -/
theorem C3_counterexample :
    (locateScenario "Move Fast Team" (trimL vAll.data)).isSome = true ∧
    (locateScenario "Scale Team" (trimL vAll.data)).isSome = true ∧
    (locateScenario "Budget Team" (trimL vAll.data)).isSome = true ∧
    parseScenarios vAll "C++" "Java" = .fail .scenariosCaught := by
  refine ⟨by decide, by decide, by decide, by decide⟩

/-- C3 amended: when both technology names are nonempty and compile to
valid mention-count patterns, parseScenarios fails only on empty verdicts
text or when some scenario's text cannot be located; once every scenario
is located, winner and reasoning extraction degrade through fallbacks and
never fail.  (With a malformed name such as C++ the fallback throws and
the catch yields a failure even though every scenario was located.) -/
theorem C3_amended (content tech1 tech2 : String) (e : ScenErr)
    (h1 : tech1 ≠ "") (h2 : tech2 ≠ "")
    (hc1 : (techRegexCompile (lowerL tech1.data)).isSome = true)
    (hc2 : (techRegexCompile (lowerL tech2.data)).isSome = true)
    (hf : parseScenarios content tech1 tech2 = .fail e) :
    (e = .invalidContent ∧ content = "") ∨
    (e = .emptyContent ∧ (trimL content.data).isEmpty = true) ∨
    (∃ name, name ∈ scenarioNames ∧ e = .missingScenario name ∧
      locateScenario name (trimL content.data) = none) := by
  rw [Option.isSome_iff_exists] at hc1 hc2
  obtain ⟨r1, hr1⟩ := hc1
  obtain ⟨r2, hr2⟩ := hc2
  obtain ⟨r, hT, hprop⟩ := @parseScenariosT_ok content tech1 tech2 r1 r2 h1 h2 hr1 hr2
  unfold parseScenarios at hf
  rw [hT] at hf
  exact hprop e hf

/-- C3 witness: the amended theorem applied at a verdicts text in which
the first scenario is not locatable, with well-formed names. -/
theorem C3_amended_witness :
    parseScenarios "x" "React" "Vue" = .fail (.missingScenario "Move Fast Team") ∧
    ((ScenErr.missingScenario "Move Fast Team" = ScenErr.invalidContent ∧
        ("x" : String) = "") ∨
     (ScenErr.missingScenario "Move Fast Team" = ScenErr.emptyContent ∧
        (trimL ("x" : String).data).isEmpty = true) ∨
     (∃ name, name ∈ scenarioNames ∧
        ScenErr.missingScenario "Move Fast Team" = ScenErr.missingScenario name ∧
        locateScenario name (trimL ("x" : String).data) = none)) :=
  ⟨by decide,
   C3_amended "x" "React" "Vue" (.missingScenario "Move Fast Team")
     (by decide) (by decide) (by decide) (by decide) (by decide)⟩

/-- C6: in a located scenario whose text matches no winner phrasing, when
the positive-context heuristic is inconclusive, both names are mentioned
equally often, and neither name has a word-boundary-delimited first
mention in the text, the returned winner is the first technology name. -/
theorem C6_default_winner (name : String) (tc cRaw : List Char)
    (tech1 tech2 : String) (r1 r2 : RE)
    (h1 : tech1 ≠ "") (h2 : tech2 ≠ "")
    (hloc : locateScenario name tc = some cRaw)
    (hwin : fgol (fun p => jsMatch p (trimL cRaw)) goodWin winnerPatterns = none)
    (hc1 : techRegexCompile (lowerL tech1.data) = some r1)
    (hc2 : techRegexCompile (lowerL tech2.data) = some r2)
    (hpos : posContext (lowerL tech1.data) (lowerL tech2.data) (lowerL (trimL cRaw))
      positiveWords = none)
    (hcount : gCount r1 (lowerL (trimL cRaw)) = gCount r2 (lowerL (trimL cRaw)))
    (hocc : jsMatch1 (cat [RE.wordB, RE.grp 1 (RE.alt r1 r2), RE.wordB]) (trimL cRaw)
      = none) :
    ∃ v, parseOneScenarioT name tc tech1 tech2 = .ok (.ok v) ∧
      v.winner = String.mk (trimL tech1.data) := by
  have hguard : (tech1 = "" || tech2 = "") = false := by simp [h1, h2]
  have hfb : fallbackWinner (trimL cRaw) tech1 tech2 = .ok tech1.data := by
    unfold fallbackWinner
    dsimp only
    rw [hc1, hc2]
    dsimp only
    rw [hpos]
    dsimp only
    rw [if_neg (by omega), if_neg (by omega), hocc]
  have hfbe : tech1.data.isEmpty = false := by
    cases hd : tech1.data
    · exact absurd hd (data_ne_nil h1)
    · rfl
  unfold parseOneScenarioT
  rw [hloc]
  dsimp only
  rw [hwin]
  dsimp only
  simp only [hguard, Bool.false_eq_true, if_false]
  rw [hfb]
  dsimp only
  simp only [hfbe, Bool.false_eq_true, if_false]
  exact ⟨_, rfl, rfl⟩

/-- A verdicts text whose single scenario is locatable but offers no
winner phrasing, no positive-sentiment context, and no mention of either
technology name. -/
def vC6 : String :=
  "**Scenario A (The \x27Move Fast\x27 Team):** zz qq ww 1234567 kk"

/-- The scenario text the locator extracts from vC6. -/
def scC6 : List Char := "zz qq ww 1234567 kk".data

def rReact : RE := (techRegexCompile (lowerL "React".data)).getD RE.eps

def rVue : RE := (techRegexCompile (lowerL "Vue".data)).getD RE.eps

/-- C6 witness: the default-winner theorem applied at a concrete scenario
text mentioning neither React nor Vue; the winner is React. -/
theorem C6_default_winner_witness :
    ∃ v, parseOneScenarioT "Move Fast Team" (trimL vC6.data) "React" "Vue" =
        .ok (.ok v) ∧ v.winner = String.mk (trimL "React".data) :=
  C6_default_winner "Move Fast Team" (trimL vC6.data) scC6 "React" "Vue"
    rReact rVue (by decide) (by decide) (by decide) (by decide) rfl rfl
    (by decide) (by decide) (by decide)

/-- Updating a client's entry makes it the one subsequent lookups see. -/
theorem rlLookup_rlSet_self (st : RLState) (id : String) (v : Nat × Nat) :
    rlLookup (rlSet st id v) id = some v := by
  induction st with
  | nil => simp [rlSet, rlLookup, List.find?]
  | cons e t ih =>
    obtain ⟨i, w⟩ := e
    by_cases hi : i = id
    · subst hi
      simp [rlSet, rlLookup, List.find?]
    · simp only [rlSet, if_neg hi, rlLookup]
      rw [List.find?_cons_of_neg _ (by simp [hi])]
      exact ih

/-- While a client's window has not expired, the admissions a run of
checks can add to a count already at k never exceed the cap's remainder:
refusals leave the count in place and admissions increment it, so at most
10 - k further calls are admitted before the cap refuses. -/
theorem rl_window_bound (id : String) :
    ∀ (ts : List Nat) (st : RLState) (k rt : Nat),
      rlLookup st id = some (k, rt) → (∀ t ∈ ts, t ≤ rt) →
      ((runRL (ts.map (fun t => (t, id))) st).2.count true) ≤
        RATE_LIMIT_MAX_REQUESTS - k := by
  intro ts
  induction ts with
  | nil => intro st k rt hl hts; simp [runRL]
  | cons t ts ih =>
    intro st k rt hl hts
    simp only [List.map_cons, runRL]
    unfold checkRateLimit
    rw [hl]
    dsimp only
    have htle : t ≤ rt := hts t (by simp)
    rw [if_neg (by omega)]
    by_cases hk : k ≥ RATE_LIMIT_MAX_REQUESTS
    · rw [if_pos hk]
      dsimp only
      have hrec := ih st k rt hl (fun t' ht' => hts t' (by simp [ht']))
      rw [List.count_cons_of_ne (by decide)]
      unfold RATE_LIMIT_MAX_REQUESTS at hrec ⊢
      omega
    · rw [if_neg hk]
      dsimp only
      have hl' : rlLookup (rlSet st id (k + 1, rt)) id = some (k + 1, rt) :=
        rlLookup_rlSet_self st id (k + 1, rt)
      have hrec := ih (rlSet st id (k + 1, rt)) (k + 1) rt hl'
        (fun t' ht' => hts t' (by simp [ht']))
      rw [List.count_cons_self]
      unfold RATE_LIMIT_MAX_REQUESTS at hk hrec ⊢
      simp only [ge_iff_le, not_le] at hk
      omega

/-- C9: starting from a state in which a client is unknown, an admitted
first request opens a 60-second window, and over any further requests
whose times fall inside that window the checker admits at most 10 calls
in total; moreover whenever a client's count has reached the cap and the
window has not expired, the POST handler answers 429
RATE_LIMIT_EXCEEDED, leaves the map unchanged, and reaches neither the
model call nor any parsing stage. -/
theorem C9_rate_limit_window :
    (∀ (id : String) (st : RLState) (t0 : Nat) (ts : List Nat),
       rlLookup st id = none →
       (∀ t ∈ ts, t ≤ t0 + RATE_LIMIT_WINDOW) →
       ((runRL ((t0, id) :: ts.map (fun t => (t, id))) st).2.count true) ≤
         RATE_LIMIT_MAX_REQUESTS) ∧
    (∀ (now : Nat) (clientId : String) (st : RLState) (k rt : Nat)
       (body : Except String (String × String)) (pv : Bool) (reply : String),
       rlLookup st clientId = some (k, rt) → k ≥ RATE_LIMIT_MAX_REQUESTS →
       ¬ now > rt →
       POSTmodel now clientId st body pv reply =
         ⟨429, "RATE_LIMIT_EXCEEDED", false, false, st⟩) := by
  constructor
  · intro id st t0 ts h0 hts
    simp only [runRL]
    unfold checkRateLimit
    rw [h0]
    dsimp only
    have hl1 : rlLookup (rlSet st id (1, t0 + RATE_LIMIT_WINDOW)) id =
        some (1, t0 + RATE_LIMIT_WINDOW) :=
      rlLookup_rlSet_self st id (1, t0 + RATE_LIMIT_WINDOW)
    have hb := rl_window_bound id ts (rlSet st id (1, t0 + RATE_LIMIT_WINDOW)) 1
      (t0 + RATE_LIMIT_WINDOW) hl1 hts
    rw [List.count_cons_self]
    unfold RATE_LIMIT_MAX_REQUESTS at hb ⊢
    omega
  · intro now clientId st k rt body pv reply hl hk hnow
    have hc : checkRateLimit clientId now st = (false, st) := by
      unfold checkRateLimit
      rw [hl]
      dsimp only
      rw [if_neg hnow, if_pos hk]
    unfold POSTmodel
    dsimp only
    rw [hc]
    rfl

/-- C9 witness: thirteen same-window requests from one client admit at
most ten, and a capped client is refused with 429 before the model call. -/
theorem C9_rate_limit_window_witness :
    ((runRL (((0, "c") : Nat × String) ::
        (List.replicate 12 0).map (fun t => (t, "c"))) []).2.count true ≤
      RATE_LIMIT_MAX_REQUESTS) ∧
    POSTmodel 5 "c" [("c", (10, 60000))] (.error "EMPTY_BODY") false "" =
      ⟨429, "RATE_LIMIT_EXCEEDED", false, false, [("c", (10, 60000))]⟩ :=
  ⟨C9_rate_limit_window.1 "c" [] 0 (List.replicate 12 0) (by decide) (by decide),
   C9_rate_limit_window.2 5 "c" [("c", (10, 60000))] 10 60000 (.error "EMPTY_BODY")
     false "" (by decide) (by decide) (by decide)⟩

/-- C5: first, for hidden-tax text on which the with-timeframe template
patterns produce no usable match (the text omits the trailing in-clause)
while the no-timeframe template alternative matches with truthy
technology and warning groups, the parse succeeds and the timeframe is
the fixed literal 6 months; second, in every successful parse whatever
the input, the impact field is exactly the concatenation of the warning,
the words expected in, and the timeframe, never sourced from the text. -/
theorem C5_default_timeframe :
    (∀ (content : String) (r1 : List Char × Caps),
       content ≠ "" →
       (trimL content.data).isEmpty = false →
       (match jsMatch htPrimary (trimL content.data) with
        | some r =>
          (match r.2.g1 with | some c => !c.isEmpty | none => false) &&
          (match r.2.g2 with | some c => !c.isEmpty | none => false) &&
          (match r.2.g3 with | some c => !c.isEmpty | none => false)
        | none => false) = false →
       (match jsMatch htAlt0 (trimL content.data) with
        | some r => htGood r
        | none => false) = false →
       jsMatch htAlt1 (trimL content.data) = some r1 →
       r1.2.g3 = none →
       htGood r1 = true →
       (trimL (r1.2.g1.getD [])).isEmpty = false →
       (trimL (r1.2.g2.getD [])).isEmpty = false →
       parseHiddenTax content =
         .ok ⟨⟨trimL (r1.2.g1.getD [])⟩, ⟨trimL (r1.2.g2.getD [])⟩, "6 months",
              ⟨trimL (r1.2.g2.getD []) ++ " expected in ".data ++ "6 months".data⟩⟩) ∧
    (∀ (content : String) (r : HiddenTax),
       parseHiddenTax content = .ok r →
       r.impact.data = r.warning.data ++ " expected in ".data ++ r.timeframe.data) := by
  constructor
  · intro content r1 h0 h1 hp ha0 ha1 hg3 hg htech hwarn
    have hd3 : htDefault3 r1 = (r1.1, r1.2.set 3 ("6 months".data)) := by
      unfold htDefault3
      rw [hg3]
    have hn1 : htAlternatives.htNext1 (trimL content.data) =
        some (r1.1, r1.2.set 3 ("6 months".data)) := by
      unfold htAlternatives.htNext1
      rw [ha1]
      dsimp only
      rw [if_pos hg, hd3]
    have halts : htAlternatives (trimL content.data) =
        some (r1.1, r1.2.set 3 ("6 months".data)) := by
      unfold htAlternatives
      cases h0m : jsMatch htAlt0 (trimL content.data) with
      | none => exact hn1
      | some r0 =>
        have hng : htGood r0 = false := by
          rw [h0m] at ha0
          exact ha0
        simp only [hng, Bool.false_eq_true, if_false]
        exact hn1
    unfold parseHiddenTax
    rw [if_neg h0]
    rw [if_neg (by simp [h1])]
    dsimp only
    rw [hp]
    simp only [Bool.false_eq_true, if_false]
    rw [halts]
    dsimp only
    have hgs : htGood (r1.1, r1.2.set 3 ("6 months".data)) = true := hg
    rw [if_pos hgs]
    dsimp only [Caps.set]
    have h6 : ("6 months".data).isEmpty = false := rfl
    simp only [h6, Bool.false_eq_true, if_false]
    have h7 : trimL ("6 months".data) = "6 months".data := by decide
    rw [h7]
    simp only [htech, hwarn, Bool.false_eq_true, if_false]
  · intro content r h
    unfold parseHiddenTax at h
    dsimp only at h
    repeat' split at h
    all_goals first
      | exact Except.noConfusion h
      | (injection h with h
         subst h
         rfl)
      | (injection h with h
         subst h
         have hx : (" expected in 6 months".data : List Char) =
             " expected in ".data ++ "6 months".data := by decide
         show _ ++ " expected in 6 months".data = _
         rw [hx, ← List.append_assoc])

/-- A hidden-tax text following the strict template but omitting the
trailing in-timeframe clause. -/
def htC5doc : String :=
  "If you choose React, be prepared to pay the tax of constant churn"

/-- The match of the no-timeframe template alternative on that text. -/
def htW1 : List Char × Caps := (jsMatch htAlt1 (trimL htC5doc.data)).getD ([], {})

/-- C5 witness: the default-timeframe theorem applied at the concrete
template text; technology React, warning constant churn, timeframe the
default 6 months, impact the concatenation. -/
theorem C5_default_timeframe_witness :
    parseHiddenTax htC5doc =
      .ok ⟨⟨trimL (htW1.2.g1.getD [])⟩, ⟨trimL (htW1.2.g2.getD [])⟩, "6 months",
           ⟨trimL (htW1.2.g2.getD []) ++ " expected in ".data ++ "6 months".data⟩⟩ :=
  C5_default_timeframe.1 htC5doc htW1 (by decide) (by decide) (by decide) (by decide)
    (by decide) (by decide) (by decide) (by decide) (by decide)

/-
Head-of-result lemmas: the match JavaScript selects is the head of the
priority-ordered result list, so the lemmas below track heads through
the pattern combinators.
-/

/-- The head of the matcher's results: the match the engine returns. -/
def HeadIs (re : RE) (prev : Option Char) (s : List Char) (caps : Caps)
    (n : Nat) (c : Caps) : Prop :=
  ∃ t, mAll re prev s caps = (n, c) :: t

theorem headIs_eps (prev : Option Char) (s : List Char) (caps : Caps) :
    HeadIs .eps prev s caps 0 caps := ⟨[], rfl⟩

theorem headIs_lit {c' c : Char} (h : c'.toLower = c.toLower)
    (prev : Option Char) (s : List Char) (caps : Caps) :
    HeadIs (.lit c) prev (c' :: s) caps 1 caps :=
  ⟨[], by simp [mAll, h]⟩

theorem headIs_starG {p : Char → Bool} {s : List Char} {k : Nat} {l : List Nat}
    (h : starGList p s = k :: l) (prev : Option Char) (caps : Caps) :
    HeadIs (.starG p) prev s caps k caps :=
  ⟨l.map (fun n => (n, caps)), by simp [mAll, h]⟩

theorem headIs_seq {a b : RE} {prev : Option Char} {s : List Char} {caps : Caps}
    {n1 : Nat} {c1 : Caps} {n2 : Nat} {c2 : Caps}
    (ha : HeadIs a prev s caps n1 c1)
    (hb : HeadIs b (prevAfter prev s n1) (s.drop n1) c1 n2 c2) :
    HeadIs (.seq a b) prev s caps (n1 + n2) c2 := by
  obtain ⟨t1, ht1⟩ := ha
  obtain ⟨t2, ht2⟩ := hb
  have hseq : mAll (.seq a b) prev s caps =
      (mAll a prev s caps).flatMap
        (fun r => (mAll b (prevAfter prev s r.1) (s.drop r.1) r.2).map
          (fun r2 => (r.1 + r2.1, r2.2))) := rfl
  refine ⟨t2.map (fun r2 => (n1 + r2.1, r2.2)) ++
    t1.flatMap (fun r => (mAll b (prevAfter prev s r.1) (s.drop r.1) r.2).map
      (fun r2 => (r.1 + r2.1, r2.2))), ?_⟩
  rw [hseq, ht1]
  simp only [List.flatMap_cons]
  rw [ht2]
  simp only [List.map_cons, List.cons_append]

theorem headIs_alt_right {a b : RE} {prev : Option Char} {s : List Char}
    {caps : Caps} {n : Nat} {c : Caps}
    (ha : mAll a prev s caps = [])
    (hb : HeadIs b prev s caps n c) : HeadIs (.alt a b) prev s caps n c := by
  obtain ⟨t, ht⟩ := hb
  exact ⟨t, by simp [mAll, ha, ht]⟩

theorem headIs_look_pos {r : RE} {prev : Option Char} {s : List Char}
    {caps : Caps} {x : Nat × Caps} {t : List (Nat × Caps)}
    (h : mAll r prev s caps = x :: t) : HeadIs (.look r) prev s caps 0 caps :=
  ⟨[], by simp [mAll, h]⟩

/-- A chain of literals consumes exactly itself (case-insensitively, here
applied to subjects carrying the very same characters). -/
theorem mAll_litsL : ∀ (w : List Char) (prev : Option Char) (s : List Char)
    (caps : Caps),
    mAll (cat (w.map RE.lit)) prev (w ++ s) caps = [(w.length, caps)] := by
  intro w
  induction w with
  | nil => intro prev s caps; simp [cat, mAll]
  | cons c t ih =>
    intro prev s caps
    have hcat : cat ((c :: t).map RE.lit) = .seq (.lit c) (cat (t.map RE.lit)) := rfl
    rw [hcat]
    have hseq : mAll (.seq (.lit c) (cat (t.map RE.lit))) prev ((c :: t) ++ s) caps =
        (mAll (.lit c) prev ((c :: t) ++ s) caps).flatMap
          (fun r => (mAll (cat (t.map RE.lit))
              (prevAfter prev ((c :: t) ++ s) r.1) (((c :: t) ++ s).drop r.1)
              r.2).map (fun r2 => (r.1 + r2.1, r2.2))) := rfl
    rw [hseq]
    have hlit : mAll (.lit c) prev ((c :: t) ++ s) caps = [(1, caps)] := by
      simp [mAll]
    rw [hlit]
    simp only [List.flatMap_cons, List.flatMap_nil, List.append_nil,
      List.cons_append, List.drop_succ_cons, List.drop_zero]
    rw [ih]
    simp [Nat.add_comm]

theorem mAll_seq_of_left_nil {a b : RE} {prev : Option Char} {s : List Char}
    {caps : Caps} (h : mAll a prev s caps = []) :
    mAll (.seq a b) prev s caps = [] := by
  have hseq : mAll (.seq a b) prev s caps =
      (mAll a prev s caps).flatMap
        (fun r => (mAll b (prevAfter prev s r.1) (s.drop r.1) r.2).map
          (fun r2 => (r.1 + r2.1, r2.2))) := rfl
  rw [hseq, h]
  rfl

theorem mAll_litsL_ne {c' c : Char} (h : ¬ c'.toLower = c.toLower) (w : List Char)
    (prev : Option Char) (s : List Char) (caps : Caps) :
    mAll (cat ((c :: w).map RE.lit)) prev (c' :: s) caps = [] := by
  have hcat : cat ((c :: w).map RE.lit) = .seq (.lit c) (cat (w.map RE.lit)) := rfl
  rw [hcat]
  have hlit : mAll (.lit c) prev (c' :: s) caps = [] := by
    simp [mAll, h]
  exact mAll_seq_of_left_nil hlit

theorem starGList_pos {p : Char → Bool} {c : Char} (t : List Char)
    (h : p c = true) :
    starGList p (c :: t) = (starGList p t).map (· + 1) ++ [0] := by
  simp [starGList, h]

theorem starGList_neg {p : Char → Bool} {c : Char} (t : List Char)
    (h : p c = false) : starGList p (c :: t) = [0] := by
  simp [starGList, h]

theorem starLList_pos {p : Char → Bool} {c : Char} (t : List Char)
    (h : p c = true) :
    starLList p (c :: t) = 0 :: (starLList p t).map (· + 1) := by
  simp [starLList, h]

theorem starLList_neg {p : Char → Bool} {c : Char} (t : List Char)
    (h : p c = false) : starLList p (c :: t) = [0] := by
  simp [starLList, h]

theorem mAll_alt_nil {a b : RE} {prev : Option Char} {s : List Char} {caps : Caps}
    (h1 : mAll a prev s caps = []) (h2 : mAll b prev s caps = []) :
    mAll (.alt a b) prev s caps = [] := by
  simp [mAll, h1, h2]

theorem mAll_eos_ne {prev : Option Char} {s : List Char} {caps : Caps}
    (h : s ≠ []) : mAll .eos prev s caps = [] := by
  simp [mAll, List.isEmpty_iff, h]

theorem mAll_look_nil {r : RE} {prev : Option Char} {s : List Char} {caps : Caps}
    (h : mAll r prev s caps = []) : mAll (.look r) prev s caps = [] := by
  simp [mAll, h]

theorem flatMap_head {α β : Type} (f : α → List β) :
    ∀ (l1 : List α) (x : α) (l2 : List α) (y : β) (t : List β),
      (∀ a ∈ l1, f a = []) → f x = y :: t →
      ∃ t2, (l1 ++ x :: l2).flatMap f = y :: t2 := by
  intro l1
  induction l1 with
  | nil =>
    intro x l2 y t h0 hx
    exact ⟨t ++ l2.flatMap f, by simp [hx]⟩
  | cons a l ih =>
    intro x l2 y t h0 hx
    obtain ⟨t2, ht2⟩ := ih x l2 y t (fun b hb => h0 b (by simp [hb])) hx
    refine ⟨t2, ?_⟩
    simp only [List.cons_append, List.flatMap_cons, h0 a (by simp),
      List.nil_append]
    exact ht2

/-- Sequencing a lazy star with a continuation: the engine tries the
consumption counts shortest first, so the selected match skips every
count on which the continuation fails and takes the first that works. -/
theorem headIs_starL_seq {p : Char → Bool} {cont : RE} {prev : Option Char}
    {s : List Char} {caps : Caps} {l1 : List Nat} {j : Nat} {l2 : List Nat}
    {n2 : Nat} {c2 : Caps}
    (hst : starLList p s = l1 ++ j :: l2)
    (hfail : ∀ i ∈ l1, mAll cont (prevAfter prev s i) (s.drop i) caps = [])
    (hok : HeadIs cont (prevAfter prev s j) (s.drop j) caps n2 c2) :
    HeadIs (.seq (.starL p) cont) prev s caps (j + n2) c2 := by
  obtain ⟨t2, ht2⟩ := hok
  have hsl : mAll (.starL p) prev s caps =
      l1.map (fun n => (n, caps)) ++ ((j, caps) :: l2.map (fun n => (n, caps))) := by
    simp [mAll, hst]
  obtain ⟨t3, ht3⟩ := flatMap_head
    (fun r => (mAll cont (prevAfter prev s r.1) (s.drop r.1) r.2).map
      (fun r2 => (r.1 + r2.1, r2.2)))
    (l1.map (fun n => (n, caps))) ((j, caps)) (l2.map (fun n => (n, caps)))
    ((j + n2, c2)) (t2.map (fun r2 => (j + r2.1, r2.2)))
    (by intro a ha
        rcases List.mem_map.1 ha with ⟨i, hi, rfl⟩
        simp [hfail i hi])
    (by simp [ht2])
  refine ⟨t3, ?_⟩
  have hseq : mAll (.seq (.starL p) cont) prev s caps =
      (mAll (.starL p) prev s caps).flatMap
        (fun r => (mAll cont (prevAfter prev s r.1) (s.drop r.1) r.2).map
          (fun r2 => (r.1 + r2.1, r2.2))) := rfl
  rw [hseq, hsl]
  exact ht3

/-- The same skip-to-first-success behaviour for the capturing lazy star:
each tried count stores its prefix as group 1 before the continuation
runs. -/
theorem headIs_grpStarL_seq {p : Char → Bool} {cont : RE} {prev : Option Char}
    {s : List Char} {caps : Caps} {l1 : List Nat} {j : Nat} {l2 : List Nat}
    {n2 : Nat} {c2 : Caps}
    (hst : starLList p s = l1 ++ j :: l2)
    (hfail : ∀ i ∈ l1, mAll cont (prevAfter prev s i) (s.drop i)
        (caps.set 1 (s.take i)) = [])
    (hok : HeadIs cont (prevAfter prev s j) (s.drop j) (caps.set 1 (s.take j)) n2 c2) :
    HeadIs (.seq (.grp 1 (.starL p)) cont) prev s caps (j + n2) c2 := by
  obtain ⟨t2, ht2⟩ := hok
  have h0 : mAll (.grp 1 (.starL p)) prev s caps =
      (starLList p s).map (fun n => (n, caps.set 1 (s.take n))) := by
    show ((starLList p s).map (fun n => (n, caps))).map
        (fun r2 => (r2.1, r2.2.set 1 (s.take r2.1))) =
      (starLList p s).map (fun n => (n, caps.set 1 (s.take n)))
    rw [List.map_map]
    rfl
  have hgl : mAll (.grp 1 (.starL p)) prev s caps =
      l1.map (fun n => (n, caps.set 1 (s.take n))) ++
        ((j, caps.set 1 (s.take j)) ::
          l2.map (fun n => (n, caps.set 1 (s.take n)))) := by
    rw [h0, hst]
    simp
  obtain ⟨t3, ht3⟩ := flatMap_head
    (fun r => (mAll cont (prevAfter prev s r.1) (s.drop r.1) r.2).map
      (fun r2 => (r.1 + r2.1, r2.2)))
    (l1.map (fun n => (n, caps.set 1 (s.take n))))
    ((j, caps.set 1 (s.take j)))
    (l2.map (fun n => (n, caps.set 1 (s.take n))))
    ((j + n2, c2)) (t2.map (fun r2 => (j + r2.1, r2.2)))
    (by intro a ha
        rcases List.mem_map.1 ha with ⟨i, hi, rfl⟩
        simp [hfail i hi])
    (by simp [ht2])
  refine ⟨t3, ?_⟩
  have hseq : mAll (.seq (.grp 1 (.starL p)) cont) prev s caps =
      (mAll (.grp 1 (.starL p)) prev s caps).flatMap
        (fun r => (mAll cont (prevAfter prev s r.1) (s.drop r.1) r.2).map
          (fun r2 => (r.1 + r2.1, r2.2))) := rfl
  rw [hseq, hgl]
  exact ht3

/-- Syntactic absence of the word-boundary assertion. -/
def noWordB : RE → Bool
  | .wordB => false
  | .seq a b => noWordB a && noWordB b
  | .alt a b => noWordB a && noWordB b
  | .grp _ r => noWordB r
  | .look r => noWordB r
  | _ => true

/-- Without word boundaries the matcher never consults the previous
character. -/
theorem mAll_prev_irrel' {re : RE} (h : noWordB re = true) (prev' : Option Char) :
    ∀ (prev : Option Char) (s : List Char) (caps : Caps),
      mAll re prev s caps = mAll re prev' s caps := by
  induction re with
  | eps => intros; rfl
  | lit c => intros; rfl
  | cls p => intros; rfl
  | seq a b iha ihb =>
    intro prev s caps
    simp only [noWordB, Bool.and_eq_true] at h
    show (mAll a prev s caps).flatMap
        (fun r => (mAll b (prevAfter prev s r.1) (s.drop r.1) r.2).map
          (fun r2 => (r.1 + r2.1, r2.2))) =
      (mAll a prev' s caps).flatMap
        (fun r => (mAll b (prevAfter prev' s r.1) (s.drop r.1) r.2).map
          (fun r2 => (r.1 + r2.1, r2.2)))
    rw [iha h.1 prev s caps]
    apply congrArg
    funext r
    rw [ihb h.2 (prevAfter prev s r.1) (s.drop r.1) r.2,
        ihb h.2 (prevAfter prev' s r.1) (s.drop r.1) r.2]
  | alt a b iha ihb =>
    intro prev s caps
    simp only [noWordB, Bool.and_eq_true] at h
    show mAll a prev s caps ++ mAll b prev s caps = _
    rw [iha h.1 prev s caps, ihb h.2 prev s caps]
    rfl
  | grp i r ih =>
    intro prev s caps
    simp only [noWordB] at h
    show (mAll r prev s caps).map _ = _
    rw [ih h prev s caps]
    rfl
  | starG p => intros; rfl
  | starL p => intros; rfl
  | look r ih =>
    intro prev s caps
    simp only [noWordB] at h
    show (if (mAll r prev s caps).isEmpty then [] else [(0, caps)]) = _
    rw [ih h prev s caps]
    rfl
  | eos => intros; rfl
  | wordB => simp [noWordB] at h

theorem starLList_true : ∀ (s : List Char),
    starLList (fun _ => true) s = List.range (s.length + 1) := by
  intro s
  induction s with
  | nil => rfl
  | cons c t ih =>
    rw [starLList_pos t rfl, ih, List.length_cons]
    nth_rewrite 2 [List.range_succ_eq_map]
    simp [Nat.succ_eq_add_one]

theorem searchAux_head {re : RE} {prev : Option Char} {s : List Char}
    {pos n : Nat} {c : Caps} {t : List (Nat × Caps)}
    (h : mAll re prev s {} = (n, c) :: t) :
    searchAux re prev s pos = some (pos, n, c) := by
  cases s with
  | nil => unfold searchAux; rw [h]
  | cons a t2 => unfold searchAux; rw [h]

/-- C8 amended: duplicate headings are resolved leftmost-first, and a
section's capture stops at the next occurrence of the following NUMBERED
heading marker (here ###-space-2-dot after the matchup section) or the
end of text: any other heading text inside the captured region, including
a duplicate of the section's own heading or a differently numbered
marker, is captured rather than terminating the section.  The body may be
any text whose first character is not whitespace and in which the
marker of section 2 matches at no position before the terminator. -/
theorem C8_amended (bh : Char) (bt rest : List Char)
    (hbh : isWs bh = false)
    (hb2 : ∀ i, i < (bh :: bt).length →
       mAll (nextMarker '2') none
         (((bh :: bt) ++ ("### 2.".data ++ rest)).drop i)
         (({} : Caps).set 1 (((bh :: bt) ++ ("### 2.".data ++ rest)).take i)) = []) :
    runSection .matchup
      ("### 1. Matchup\n".data ++ ((bh :: bt) ++ ("### 2.".data ++ rest))) =
      some (bh :: bt) := by
  have hm2 : ∀ (prev : Option Char) (caps : Caps),
      HeadIs (nextMarker '2') prev ("### 2.".data ++ rest) caps
        (3 + (1 + (1 + (1 + 0)))) caps := by
    intro prev caps
    have hc : nextMarker '2' = .seq (cat ("###".data.map RE.lit))
        (.seq wsStar (.seq (.lit '2') (.seq (.lit '.') RE.eps))) := rfl
    rw [hc]
    apply headIs_seq
    · exact ⟨[], mAll_litsL "###".data prev (' ' :: '2' :: '.' :: rest) caps⟩
    · have hg1 : starGList isWs (' ' :: '2' :: '.' :: rest) = [1, 0] := by
        rw [starGList_pos ('2' :: '.' :: rest) (by decide),
            starGList_neg ('.' :: rest) (by decide)]
        rfl
      apply headIs_seq
      · exact headIs_starG hg1 _ _
      · apply headIs_seq
        · exact headIs_lit (by decide) _ ('.' :: rest) _
        · apply headIs_seq
          · exact headIs_lit (by decide) _ rest _
          · exact headIs_eps _ _ _
  have hnw : noWordB (nextMarker '2') = true := by decide
  have h6 : ("### 2.".data).length = 6 := rfl
  have hcap : ∀ (prevX : Option Char),
      HeadIs (.seq (.grp 1 (.starL (fun _ => true)))
          (.seq (.look (.alt (nextMarker '2') .eos)) .eps))
        prevX ((bh :: bt) ++ ("### 2.".data ++ rest)) {}
        ((bh :: bt).length + (0 + (0 + 0))) (({} : Caps).set 1 (bh :: bt)) := by
    intro prevX
    have h1 : ((bh :: bt) ++ ("### 2.".data ++ rest)).length + 1 =
        (bh :: bt).length + (7 + rest.length) := by
      simp [List.length_append, h6]
      omega
    have hrange : List.range (((bh :: bt) ++ ("### 2.".data ++ rest)).length + 1) =
        List.range (bh :: bt).length ++ ((bh :: bt).length ::
          ((List.range (6 + rest.length)).map Nat.succ).map ((bh :: bt).length + ·)) := by
      rw [h1, List.range_add,
          show (7 + rest.length) = (6 + rest.length) + 1 from by omega,
          List.range_succ_eq_map]
      simp
    have hstC : starLList (fun _ => true) ((bh :: bt) ++ ("### 2.".data ++ rest)) =
        List.range (bh :: bt).length ++ ((bh :: bt).length ::
          ((List.range (6 + rest.length)).map Nat.succ).map ((bh :: bt).length + ·)) := by
      rw [starLList_true, hrange]
    have hdropb : ((bh :: bt) ++ ("### 2.".data ++ rest)).drop (bh :: bt).length =
        "### 2.".data ++ rest := List.drop_left _ _
    have htakeb : ((bh :: bt) ++ ("### 2.".data ++ rest)).take (bh :: bt).length =
        bh :: bt := List.take_left _ _
    apply headIs_grpStarL_seq hstC
    · intro i hi
      rw [List.mem_range] at hi
      apply mAll_seq_of_left_nil
      apply mAll_look_nil
      apply mAll_alt_nil
      · rw [mAll_prev_irrel' hnw none]
        exact hb2 i hi
      · apply mAll_eos_ne
        intro hnil
        rw [List.drop_eq_nil_iff] at hnil
        have hlen2 : ((bh :: bt) ++ ("### 2.".data ++ rest)).length =
            (bh :: bt).length + ("### 2.".data ++ rest).length :=
          List.length_append _ _
        omega
    · rw [hdropb, htakeb]
      apply headIs_seq
      · obtain ⟨t0, ht0⟩ := hm2 none (({} : Caps).set 1 (bh :: bt))
        apply headIs_look_pos
        show mAll (.alt (nextMarker '2') RE.eos) _ ("### 2.".data ++ rest)
          (({} : Caps).set 1 (bh :: bt)) = _
        have halt : mAll (.alt (nextMarker '2') RE.eos)
            (prevAfter prevX ((bh :: bt) ++ ("### 2.".data ++ rest))
              (bh :: bt).length)
            ("### 2.".data ++ rest) (({} : Caps).set 1 (bh :: bt)) =
            (3 + (1 + (1 + (1 + 0))), ({} : Caps).set 1 (bh :: bt)) ::
              (t0 ++ mAll RE.eos
                (prevAfter prevX ((bh :: bt) ++ ("### 2.".data ++ rest))
                  (bh :: bt).length)
                ("### 2.".data ++ rest) (({} : Caps).set 1 (bh :: bt))) := by
          show mAll (nextMarker '2') _ _ _ ++ mAll RE.eos _ _ _ = _
          rw [mAll_prev_irrel' hnw none, ht0]
          rw [List.cons_append]
        exact halt
      · exact headIs_eps _ _ _
  have hre : sectionRE .matchup = .seq (nextMarker '1')
      (.seq (.starL isDot)
        (.seq (.alt (cat ("🥊".data.map RE.lit)) (cat ("Matchup".data.map RE.lit)))
          (.seq wsStar
            (.seq (.grp 1 (.starL (fun _ => true)))
              (.seq (.look (.alt (nextMarker '2') .eos)) RE.eps))))) := rfl
  have hfull : HeadIs (sectionRE .matchup) none
      ("### 1. Matchup\n".data ++ ((bh :: bt) ++ ("### 2.".data ++ rest))) {}
      ((3 + (1 + (1 + (1 + 0)))) +
        (1 + (7 + (1 + ((bh :: bt).length + (0 + (0 + 0)))))))
      (({} : Caps).set 1 (bh :: bt)) := by
    rw [hre]
    apply headIs_seq
    · have hc1 : nextMarker '1' = .seq (cat ("###".data.map RE.lit))
          (.seq wsStar (.seq (.lit '1') (.seq (.lit '.') RE.eps))) := rfl
      rw [hc1]
      apply headIs_seq
      · exact ⟨[], mAll_litsL "###".data none
          (' ' :: '1' :: '.' :: ' ' :: 'M' :: 'a' :: 't' :: 'c' :: 'h' :: 'u' ::
            'p' :: '\n' :: ((bh :: bt) ++ ("### 2.".data ++ rest))) {}⟩
      · have hg1 : starGList isWs
            (' ' :: '1' :: '.' :: ' ' :: 'M' :: 'a' :: 't' :: 'c' :: 'h' :: 'u' ::
              'p' :: '\n' :: ((bh :: bt) ++ ("### 2.".data ++ rest))) = [1, 0] := by
          rw [starGList_pos _ (by decide), starGList_neg _ (by decide)]
          rfl
        apply headIs_seq
        · exact headIs_starG hg1 _ _
        · apply headIs_seq
          · exact headIs_lit (by decide) _ _ _
          · apply headIs_seq
            · exact headIs_lit (by decide) _ _ _
            · exact headIs_eps _ _ _
    · have hstD : starLList isDot
          (' ' :: 'M' :: 'a' :: 't' :: 'c' :: 'h' :: 'u' :: 'p' :: '\n' ::
            ((bh :: bt) ++ ("### 2.".data ++ rest))) =
          [0] ++ 1 :: [2, 3, 4, 5, 6, 7, 8] := by
        rw [starLList_pos _ (by decide), starLList_pos _ (by decide),
            starLList_pos _ (by decide), starLList_pos _ (by decide),
            starLList_pos _ (by decide), starLList_pos _ (by decide),
            starLList_pos _ (by decide), starLList_pos _ (by decide),
            starLList_neg _ (by decide)]
        rfl
      apply headIs_starL_seq hstD
      · intro i hi
        simp only [List.mem_singleton] at hi
        subst hi
        apply mAll_seq_of_left_nil
        apply mAll_alt_nil
        · exact mAll_litsL_ne (by decide) [] _ _ _
        · exact mAll_litsL_ne (by decide) "atchup".data _ _ _
      · apply headIs_seq
        · apply headIs_alt_right
          · exact mAll_litsL_ne (by decide) [] _ _ _
          · exact ⟨[], mAll_litsL "Matchup".data _
              ('\n' :: ((bh :: bt) ++ ("### 2.".data ++ rest))) _⟩
        · apply headIs_seq
          · have hws2 : starGList isWs
                ('\n' :: ((bh :: bt) ++ ("### 2.".data ++ rest))) = [1, 0] := by
              rw [starGList_pos _ (by decide),
                  show ((bh :: bt) ++ ("### 2.".data ++ rest)) =
                    bh :: (bt ++ ("### 2.".data ++ rest)) from rfl,
                  starGList_neg _ hbh]
              rfl
            exact headIs_starG hws2 _ _
          · exact hcap _
  obtain ⟨t, ht⟩ := hfull
  show jsMatch1 (sectionRE .matchup) _ = _
  unfold jsMatch1 jsMatch jsSearch
  rw [searchAux_head ht]
  rfl

/-- C8 counterexample: the claim says a section's capture stops at the
next occurrence of ANY heading.  Here the matchup capture runs straight
through a stray numbered heading (### 5.) and stops only at the marker
of the next expected section (### 2.), so the captured content contains
a heading occurrence. -/
theorem C8_counterexample :
    runSection .matchup
      ("### 1. Matchup\nAlpha beta.\n### 5. Stray heading\nmore text\n### 2. Tale").data =
      some "Alpha beta.\n### 5. Stray heading\nmore text\n".data ∧
    containsSub "### 5.".data
      "Alpha beta.\n### 5. Stray heading\nmore text\n".data = true := by
  refine ⟨by decide, by decide⟩

/-- C8 witness: the amended theorem applied at a body containing both a
duplicate of the matchup heading itself and a stray ### 5. heading; the
capture runs through both and stops at ### 2. -/
theorem C8_amended_witness :
    runSection .matchup ("### 1. Matchup\n".data ++
      (('A' :: "lpha ### 1. Matchup dup ### 5. stray\n".data) ++
        ("### 2.".data ++ " Tale".data))) =
      some ('A' :: "lpha ### 1. Matchup dup ### 5. stray\n".data) :=
  C8_amended 'A' "lpha ### 1. Matchup dup ### 5. stray\n".data " Tale".data
    (by decide) (by decide)

/-- C1 witness: the amended theorem applied at a whitespace-only reply
(refused as empty, naming no section) and at a nonempty reply missing
every heading (failing with the first section in scan order). -/
theorem C1_amended_witness :
    extractSections " " = .error .emptyResponse ∧
    extractSections "x" = .error (.missingSection .matchup) :=
  ⟨(C1_amended " ").1 (by decide),
   (C1_amended "x").2.1 (by decide) .matchup (by decide)⟩
